import Mathlib

/-!
Verification of the kernel-setup module of CatLearn
(`atoml/regression/gpfunctions/kernel_setup.py`).

The module is embedded shallowly: a kernel block (a Python dict) becomes an
association list from string keys to `Val` values, a kernel dictionary becomes
an association list from string keys to blocks, and every fallible operation
returns `Except PyErr`.  Numeric scalars (Python floats and ints) carry a
rational payload; no floating-point rounding occurs in the source (values are
only moved around, replicated and converted with `float`), so `Rat` represents
them exactly.  In-place mutation of the caller's dictionaries is made explicit
by threading the updated association lists through each function and, for the
decoder, by returning the partially updated dictionary together with the error.
-/

namespace CatLearn

/-- Kinds of Python exceptions the module can raise.  Messages are dropped;
only the exception class is modelled. -/
inductive PyErr where
  | assertionError
  | keyError
  | typeError
  | indexError
  | nameError
  | valueError
  | notImplementedError
  | parseError
  deriving DecidableEq, Repr

/-- Python values stored in a kernel dictionary: floats, ints, strings,
lists, tuples and `None`. -/
inductive Val where
  | float (q : ℚ)
  | int (n : ℤ)
  | str (s : String)
  | list (xs : List Val)
  | tuple (xs : List Val)
  | pyNone
  deriving Repr

mutual

/-- Decidable equality on `Val` (the `deriving` handler does not support
the nested `List Val` occurrences). -/
def Val.decEq : (a b : Val) → Decidable (a = b)
  | .float a, .float b =>
      if h : a = b then .isTrue (h ▸ rfl)
      else .isFalse (fun hc => h (Val.float.inj hc))
  | .int a, .int b =>
      if h : a = b then .isTrue (h ▸ rfl)
      else .isFalse (fun hc => h (Val.int.inj hc))
  | .str a, .str b =>
      if h : a = b then .isTrue (h ▸ rfl)
      else .isFalse (fun hc => h (Val.str.inj hc))
  | .list xs, .list ys =>
      match Val.decEqList xs ys with
      | .isTrue h => .isTrue (h ▸ rfl)
      | .isFalse h => .isFalse (fun hc => h (Val.list.inj hc))
  | .tuple xs, .tuple ys =>
      match Val.decEqList xs ys with
      | .isTrue h => .isTrue (h ▸ rfl)
      | .isFalse h => .isFalse (fun hc => h (Val.tuple.inj hc))
  | .pyNone, .pyNone => .isTrue rfl
  | .float _, .int _ | .float _, .str _ | .float _, .list _
  | .float _, .tuple _ | .float _, .pyNone
  | .int _, .float _ | .int _, .str _ | .int _, .list _
  | .int _, .tuple _ | .int _, .pyNone
  | .str _, .float _ | .str _, .int _ | .str _, .list _
  | .str _, .tuple _ | .str _, .pyNone
  | .list _, .float _ | .list _, .int _ | .list _, .str _
  | .list _, .tuple _ | .list _, .pyNone
  | .tuple _, .float _ | .tuple _, .int _ | .tuple _, .str _
  | .tuple _, .list _ | .tuple _, .pyNone
  | .pyNone, .float _ | .pyNone, .int _ | .pyNone, .str _
  | .pyNone, .list _ | .pyNone, .tuple _ =>
      .isFalse (fun hc => Val.noConfusion hc)

/-- Decidable equality on lists of `Val`. -/
def Val.decEqList : (xs ys : List Val) → Decidable (xs = ys)
  | [], [] => .isTrue rfl
  | [], _ :: _ => .isFalse (fun hc => List.noConfusion hc)
  | _ :: _, [] => .isFalse (fun hc => List.noConfusion hc)
  | x :: xs, y :: ys =>
      match Val.decEq x y, Val.decEqList xs ys with
      | .isTrue h1, .isTrue h2 => .isTrue (by rw [h1, h2])
      | .isFalse h1, _ =>
          .isFalse (fun hc => h1 (List.head_eq_of_cons_eq hc))
      | _, .isFalse h2 =>
          .isFalse (fun hc => h2 (List.tail_eq_of_cons_eq hc))

end

instance : DecidableEq Val := Val.decEq

deriving instance DecidableEq for Except

/-- A kernel block: a Python dict from string keys to values, kept in
insertion order. -/
abbrev KDict := List (String × Val)

/-- A kernel dictionary: one named block per kernel term, in insertion
order. -/
abbrev KernelSpec := List (String × KDict)

/-- Python `k in d` on a dict. -/
def hasKey (d : KDict) (k : String) : Bool :=
  d.any (fun p => p.1 == k)

/-- Python `d[k]`: the stored value, or `KeyError`. -/
def getKey (d : KDict) (k : String) : Except PyErr Val :=
  match d.find? (fun p => p.1 == k) with
  | some p => .ok p.2
  | none => .error .keyError

/-- Python `d[k] = v`: replace the value in place (keys keep their
position), appending a fresh key at the end. -/
def setKey : KDict → String → Val → KDict
  | [], k, v => [(k, v)]
  | (k', v') :: rest, k, v =>
      if k' == k then (k, v) :: rest else (k', v') :: setKey rest k v

/-- Python `len(v)` for the sequence types appearing in the module. -/
def pyLen : Val → Except PyErr Nat
  | .list xs => .ok xs.length
  | .tuple xs => .ok xs.length
  | .str s => .ok s.length
  | _ => .error .typeError

/-- Python `list(v)`. -/
def pyListOf : Val → Except PyErr (List Val)
  | .list xs => .ok xs
  | .tuple xs => .ok xs
  | .str s => .ok (s.toList.map (fun c => .str c.toString))
  | _ => .error .typeError

/-- Python `type(v) is float`. -/
def Val.isFloat : Val → Bool
  | .float _ => true
  | _ => false

/-- Python `type(v) is int`. -/
def Val.isInt : Val → Bool
  | .int _ => true
  | _ => false

/-- Python `str(v)`.  On strings this is the identity; other values render
to strings that are never equal to a kernel-type name, which is the only
way the module uses the result. -/
def pyStr : Val → String
  | .str s => s
  | .float _ => "<float>"
  | .int n => toString n
  | .list _ => "<list>"
  | .tuple _ => "<tuple>"
  | .pyNone => "None"

/-- Python `bounds += v` where `bounds` is a tuple: concatenation when `v`
is a tuple, `TypeError` otherwise. -/
def tupleExtend (bounds : List Val) (v : Val) : Except PyErr (List Val) :=
  match v with
  | .tuple xs => .ok (bounds ++ xs)
  | _ => .error .typeError

/-- Python `t * n` for a tuple `t`: `n` concatenated copies. -/
def tupleRepeat (t : List Val) (n : Nat) : List Val :=
  (List.replicate n t).flatten

/-- The default bound pair selected at the top of `prepare_kernels`:
`((1e-12, None),)` normally, `((1e-6, 1e6),)` when gradients are
evaluated. -/
def defaultBoundsFor (evalGradients : Bool) : List Val :=
  if evalGradients then
    [Val.tuple [.float (1 / 1000000), .float 1000000]]
  else
    [Val.tuple [.float (1 / 1000000000000), .pyNone]]

/-- `_scaling_setup`: asserts the scaling parameter is a float, then appends
either the block's `scaling_bounds` or the default bound pair. -/
def scalingSetup (kd : KDict) (bounds : List Val) (db : List Val) :
    Except PyErr (List Val) :=
  match getKey kd "scaling" with
  | .error e => .error e
  | .ok sv =>
    if sv.isFloat then
      if hasKey kd "scaling_bounds" then
        match getKey kd "scaling_bounds" with
        | .error e => .error e
        | .ok sb => tupleExtend bounds sb
      else
        .ok (bounds ++ db)
    else
      .error .assertionError

/-- `_constant_setup`: allowed-key check, float check on `const`, then the
bounds-override-or-default append.  `bounds` is not among the allowed keys,
so the override branch is unreachable from `prepare_kernels`. -/
def constantSetup (kd : KDict) (bounds : List Val) (_nd : Nat)
    (db : List Val) : Except PyErr (KDict × List Val) :=
  if kd.all (fun p =>
      ["type", "operation", "features", "dimension", "const"].contains p.1)
  then
    match getKey kd "const" with
    | .error e => .error e
    | .ok cv =>
      if cv.isFloat then
        if hasKey kd "bounds" then
          match getKey kd "bounds" with
          | .error e => .error e
          | .ok bv =>
            match tupleExtend bounds bv with
            | .error e => .error e
            | .ok b2 => .ok (kd, b2)
        else
          .ok (kd, bounds ++ db)
      else
        .error .assertionError
  else
    .error .assertionError

/-- `_gaussian_setup`: requires `width`, checks allowed keys, broadcasts a
scalar width to a list of length `nd`, appends bounds.  As in
`_constant_setup`, `bounds` is not an allowed key. -/
def gaussianSetup (kd : KDict) (bounds : List Val) (nd : Nat)
    (db : List Val) : Except PyErr (KDict × List Val) :=
  if hasKey kd "width" then
    if kd.all (fun p =>
        ["type", "operation", "features", "dimension", "scaling",
         "width"].contains p.1) then
      match getKey kd "width" with
      | .error e => .error e
      | .ok theta =>
        let kd2 := if theta.isFloat || theta.isInt then
            setKey kd "width" (.list (List.replicate nd theta))
          else kd
        if hasKey kd2 "bounds" then
          match getKey kd2 "bounds" with
          | .error e => .error e
          | .ok bv =>
            match tupleExtend bounds bv with
            | .error e => .error e
            | .ok b2 => .ok (kd2, b2)
        else
          .ok (kd2, bounds ++ tupleRepeat db nd)
    else
      .error .assertionError
  else
    .error .assertionError

/-- `_quadratic_setup`: requires `slope` and `degree`, checks allowed keys,
broadcasts a scalar slope, then appends bounds twice (a group for the slope
and one entry for the degree); both override branches test the same
disallowed `bounds` key. -/
def quadraticSetup (kd : KDict) (bounds : List Val) (nd : Nat)
    (db : List Val) : Except PyErr (KDict × List Val) :=
  if hasKey kd "slope" && hasKey kd "degree" then
    if kd.all (fun p =>
        ["type", "operation", "features", "dimension", "scaling",
         "slope", "degree"].contains p.1) then
      match getKey kd "slope" with
      | .error e => .error e
      | .ok theta =>
        let kd2 := if theta.isFloat || theta.isInt then
            setKey kd "slope" (.list (List.replicate nd theta))
          else kd
        match (if hasKey kd2 "bounds" then
            match getKey kd2 "bounds" with
            | .error e => .error e
            | .ok bv => tupleExtend bounds bv
          else
            .ok (bounds ++ tupleRepeat db nd) : Except PyErr (List Val)) with
        | .error e => .error e
        | .ok b2 =>
          if hasKey kd2 "bounds" then
            match getKey kd2 "bounds" with
            | .error e => .error e
            | .ok bv =>
              match tupleExtend b2 bv with
              | .error e => .error e
              | .ok b3 => .ok (kd2, b3)
          else
            .ok (kd2, b2 ++ db)
    else
      .error .assertionError
  else
    .error .assertionError

/-- `_laplacian_setup`: identical logic to the gaussian setup. -/
def laplacianSetup (kd : KDict) (bounds : List Val) (nd : Nat)
    (db : List Val) : Except PyErr (KDict × List Val) :=
  if hasKey kd "width" then
    if kd.all (fun p =>
        ["type", "operation", "features", "dimension", "scaling",
         "width"].contains p.1) then
      match getKey kd "width" with
      | .error e => .error e
      | .ok theta =>
        let kd2 := if theta.isFloat || theta.isInt then
            setKey kd "width" (.list (List.replicate nd theta))
          else kd
        if hasKey kd2 "bounds" then
          match getKey kd2 "bounds" with
          | .error e => .error e
          | .ok bv =>
            match tupleExtend bounds bv with
            | .error e => .error e
            | .ok b2 => .ok (kd2, b2)
        else
          .ok (kd2, bounds ++ tupleRepeat db nd)
    else
      .error .assertionError
  else
    .error .assertionError

/-- Whether a string is shaped like a Python identifier fragment, so that
`eval` on the formatted call `_<name>_setup(...)` fails with `NameError`
(caught and re-raised as `NotImplementedError`) rather than a syntax
error. -/
def identLike (s : String) : Bool :=
  s.toList.all (fun c => c.isAlphanum || c == '_')

/-- The per-type dispatch at the end of the `prepare_kernels` loop body,
driven in the source by formatting the type name into a function name and
evaluating it.  The source compares type names with `is`, which behaves as
string equality for the interned literals used in kernel dictionaries. -/
def dispatchSetup (ktype : Val) (kd : KDict) (bounds1 : List Val)
    (nd2 : Nat) (db : List Val) : Except PyErr (KDict × List Val × Nat) :=
  match ktype with
  | .str "user" => .ok (kd, bounds1, nd2)
  | .str "linear" => .ok (kd, bounds1, nd2)
  | .str "constant" =>
      match constantSetup kd bounds1 nd2 db with
      | .error e => .error e
      | .ok (kd2, b2) => .ok (kd2, b2, nd2)
  | .str "gaussian" =>
      match gaussianSetup kd bounds1 nd2 db with
      | .error e => .error e
      | .ok (kd2, b2) => .ok (kd2, b2, nd2)
  | .str "quadratic" =>
      match quadraticSetup kd bounds1 nd2 db with
      | .error e => .error e
      | .ok (kd2, b2) => .ok (kd2, b2, nd2)
  | .str "laplacian" =>
      match laplacianSetup kd bounds1 nd2 db with
      | .error e => .error e
      | .ok (kd2, b2) => .ok (kd2, b2, nd2)
  | .str "scaling" =>
      -- `eval` finds `_scaling_setup` but calls it with four arguments.
      .error .typeError
  | .str s =>
      if identLike s then .error .notImplementedError
      else .error .parseError
  | .int n =>
      if 0 ≤ n then .error .notImplementedError else .error .parseError
  | _ => .error .parseError

/-- The `features` handling at the top of the `prepare_kernels` loop body:
when present, the features length becomes the new dimension count and must
not exceed the previous one. -/
def featuresStep (kd : KDict) (nd : Nat) : Except PyErr Nat :=
  if hasKey kd "features" then
    match getKey kd "features" with
    | .error e => .error e
    | .ok fv =>
      match pyLen fv with
      | .error e => .error e
      | .ok n => if n ≤ nd then .ok n else .error .assertionError
  else
    .ok nd

/-- The `dimension` handling of the `prepare_kernels` loop body: the value
must be the string single or features, and single forces the count to 1. -/
def dimensionStep (kd : KDict) (nd1 : Nat) : Except PyErr Nat :=
  if hasKey kd "dimension" then
    match getKey kd "dimension" with
    | .error e => .error e
    | .ok (.str s) =>
        if s == "single" then .ok 1
        else if s == "features" then .ok nd1
        else .error .assertionError
    | .ok _ => .error .assertionError
  else
    .ok nd1

/-- The `scaling` handling of the `prepare_kernels` loop body. -/
def scalingStep (kd : KDict) (bounds : List Val) (db : List Val) :
    Except PyErr (List Val) :=
  if hasKey kd "scaling" then scalingSetup kd bounds db
  else .ok bounds

def prepareBlock (kd : KDict) (bounds : List Val) (nd : Nat)
    (db : List Val) : Except PyErr (KDict × List Val × Nat) :=
  if hasKey kd "type" then
    match featuresStep kd nd with
    | .error e => .error e
    | .ok nd1 =>
      match dimensionStep kd nd1 with
      | .error e => .error e
      | .ok nd2 =>
        match scalingStep kd bounds db with
        | .error e => .error e
        | .ok bounds1 =>
          match getKey kd "type" with
          | .error e => .error e
          | .ok ktype => dispatchSetup ktype kd bounds1 nd2 db
  else
    .error .assertionError

/-- The `for key in kernel_dict` loop of `prepare_kernels`, threading the
bounds tuple and the mutable `N_D` variable. -/
def prepareBlocks : KernelSpec → List Val → Nat → List Val →
    Except PyErr (KernelSpec × List Val × Nat)
  | [], bounds, nd, _ => .ok ([], bounds, nd)
  | (key, kd) :: rest, bounds, nd, db =>
      match prepareBlock kd bounds nd db with
      | .error e => .error e
      | .ok (kd2, b2, nd2) =>
          match prepareBlocks rest b2 nd2 db with
          | .error e => .error e
          | .ok (rest2, b3, nd3) => .ok ((key, kd2) :: rest2, b3, nd3)

/-- `prepare_kernels`: normalize the kernel dictionary and build the bounds
tuple, ending with the regularization bound pair. -/
def prepare_kernels (spec : KernelSpec) (regularization_bounds : Val)
    (eval_gradients : Bool) (nd : Nat) :
    Except PyErr (KernelSpec × List Val) :=
  match prepareBlocks spec [] nd (defaultBoundsFor eval_gradients) with
  | .error e => .error e
  | .ok (spec2, bounds, _) =>
      .ok (spec2, bounds ++ [regularization_bounds])

/-! ## Hyperparameter codec -/

/-- Python `xs + v` where `xs` is a list: concatenation when `v` is also a
list, `TypeError` otherwise (adding a tuple or scalar to a list fails). -/
def listAdd (xs : List Val) (v : Val) : Except PyErr (List Val) :=
  match v with
  | .list ys => .ok (xs ++ ys)
  | _ => .error .typeError

/-- The generic branch of `kdict2list`, shared by the `hyperparameters`
and `theta` keys: dimension inference (features length, then the supplied
ambient count, then the parameter's own length) and scalar broadcast of a
float.  Returns the new `theta` and the updated local `N_D`. -/
def genericTheta (kd : KDict) (pkey : String) (nd : Option Nat) :
    Except PyErr (Option Val × Option Nat) :=
  match getKey kd pkey with
  | .error e => .error e
  | .ok t =>
    match (if hasKey kd "features" then
        match getKey kd "features" with
        | .error e => .error e
        | .ok f => pyLen f
      else
        match nd with
        | some n => .ok n
        | none => pyLen t : Except PyErr Nat) with
    | .error e => .error e
    | .ok ndv =>
        .ok (some (if t.isFloat then Val.list (List.replicate ndv t) else t),
             some ndv)

/-- `kdict2list`: the per-block encoder.  Returns the `scaling` list and the
`theta` value.  `theta` is tracked as an `Option` because the source leaves
the variable unbound (raising `NameError` at first use) when no branch
assigns it.  The two conditionals of the source are kept separate: the
first `if` (gaussian / sqe / laplacian) is not chained to the second
`if`/`elif` cascade, so a block of one of those types that also carries a
`hyperparameters` or `theta` key has its width overwritten by the generic
branch. -/
def kdict2list (kd : KDict) (nd : Option Nat) :
    Except PyErr (List Val × Val) :=
  match getKey kd "type" with
  | .error e => .error e
  | .ok tv =>
    let ktype := pyStr tv
    match (if hasKey kd "scaling" then
        match getKey kd "scaling" with
        | .error e => .error e
        | .ok s => .ok [s]
      else
        .ok [] : Except PyErr (List Val)) with
    | .error e => .error e
    | .ok scaling =>
      -- First conditional: gaussian / sqe / laplacian widths.
      match (if ktype == "gaussian" || ktype == "sqe"
          || ktype == "laplacian" then
          match getKey kd "width" with
          | .error e => .error e
          | .ok w =>
            match pyListOf w with
            | .error e => .error e
            | .ok l => .ok (some (Val.list l))
        else
          .ok none : Except PyErr (Option Val)) with
      | .error e => .error e
      | .ok theta0 =>
        -- Second conditional cascade; its generic branches also update
        -- the local `N_D`.
        match (if ktype == "scaled_sqe" then
            match getKey kd "d_scaling" with
            | .error e => .error e
            | .ok d =>
              match pyListOf d with
              | .error e => .error e
              | .ok ld =>
                match getKey kd "width" with
                | .error e => .error e
                | .ok w =>
                  match pyListOf w with
                  | .error e => .error e
                  | .ok lw => .ok (some (Val.list (ld ++ lw)), nd)
          else if ktype == "quadratic" then
            match getKey kd "slope" with
            | .error e => .error e
            | .ok s =>
              match pyListOf s with
              | .error e => .error e
              | .ok ls =>
                match getKey kd "degree" with
                | .error e => .error e
                | .ok dg => .ok (some (Val.list (ls ++ [dg])), nd)
          else if ktype == "linear" then
            .ok (some (Val.list []), nd)
          else if ktype == "constant" then
            match getKey kd "const" with
            | .error e => .error e
            | .ok c => .ok (some (Val.list [c]), nd)
          else if hasKey kd "hyperparameters" then
            genericTheta kd "hyperparameters" nd
          else if hasKey kd "theta" then
            genericTheta kd "theta" nd
          else
            .ok (theta0, nd) :
            Except PyErr (Option Val × Option Nat)) with
        | .error e => .error e
        | .ok (theta1, nd1) =>
          -- The `constrained` block computes a value that is discarded,
          -- but its length calculations and its `type(theta)` test can
          -- still raise.
          match (if hasKey kd "constrained" then
              match getKey kd "constrained" with
              | .error e => .error e
              | .ok c =>
                match (if hasKey kd "features" then
                    -- The source takes `len(kdict['constrained'])` here.
                    pyLen c
                  else
                    match nd1 with
                    | some n => .ok n
                    | none => pyLen c : Except PyErr Nat) with
                | .error e => .error e
                | .ok _ =>
                  match theta1 with
                  | none => .error .nameError
                  | some _ => .ok ()
            else
              .ok () : Except PyErr Unit) with
          | .error e => .error e
          | .ok _ =>
            match theta1 with
            | some t => .ok (scaling, t)
            | none => .error .nameError

/-- The per-block rows of `kdicts2list`, before `np.concatenate`:
`theta[0] + theta[1]` for each block in order. -/
def kdicts2listRows : KernelSpec → Option Nat →
    Except PyErr (List (List Val))
  | [], _ => .ok []
  | (_, kd) :: rest, nd =>
      match kdict2list kd nd with
      | .error e => .error e
      | .ok (s, t) =>
          match listAdd s t with
          | .error e => .error e
          | .ok row =>
              match kdicts2listRows rest nd with
              | .error e => .error e
              | .ok rows => .ok (row :: rows)

/-- A numeric `Val` as a float (`np.concatenate` produces a float array
from the numeric rows; non-numeric content is modelled as an error, since
the decoder requires numbers). -/
def valToFloat : Val → Except PyErr ℚ
  | .float q => .ok q
  | .int n => .ok (n : ℚ)
  | _ => .error .valueError

/-- All entries of a row as floats. -/
def valsToFloats : List Val → Except PyErr (List ℚ)
  | [] => .ok []
  | v :: rest =>
      match valToFloat v with
      | .error e => .error e
      | .ok q =>
          match valsToFloats rest with
          | .error e => .error e
          | .ok qs => .ok (q :: qs)

/-- `kdicts2list`: encode the whole kernel dictionary into the flat
hyperparameter vector.  `np.concatenate` of an empty sequence of rows
raises. -/
def kdicts2list (spec : KernelSpec) (nd : Option Nat) :
    Except PyErr (List ℚ) :=
  match kdicts2listRows spec nd with
  | .error e => .error e
  | .ok rows =>
      if rows.isEmpty then .error .valueError
      else valsToFloats rows.flatten

/-- Python `hs[i]` on a list/array of floats. -/
def pyIndex (hs : List ℚ) (i : Nat) : Except PyErr ℚ :=
  match hs[i]? with
  | some q => .ok q
  | none => .error .indexError

/-- Python `hs[i : i + n]`: a slice, silently truncated at the end of the
list. -/
def pySlice (hs : List ℚ) (i n : Nat) : List ℚ :=
  (hs.drop i).take n

/-- The `scaling` consumption at the top of one `list2kdict` iteration. -/
def decodeScaling (hs : List ℚ) (kd : KDict) (ki : Nat) :
    Except PyErr Nat × KDict :=
  if hasKey kd "scaling" then
    match pyIndex hs ki with
    | .error e => (.error e, kd)
    | .ok q => (.ok (ki + 1), setKey kd "scaling" (.float q))
  else
    (.ok ki, kd)

/-- The per-type consumption of one `list2kdict` iteration, after the
scaling element. -/
def decodeDispatch (hs : List ℚ) (ktype : Val) (kd1 : KDict) (ki1 : Nat) :
    Except PyErr Nat × KDict :=
  if ktype == .str "gaussian" || ktype == .str "sqe"
      || ktype == .str "laplacian" then
    match getKey kd1 "width" with
    | .error e => (.error e, kd1)
    | .ok w =>
      match pyLen w with
      | .error e => (.error e, kd1)
      | .ok n =>
        let theta := pySlice hs ki1 n
        (.ok (ki1 + n), setKey kd1 "width" (.list (theta.map .float)))
  else if ktype == .str "scaled_sqe" then
    match getKey kd1 "width" with
    | .error e => (.error e, kd1)
    | .ok w =>
      match pyLen w with
      | .error e => (.error e, kd1)
      | .ok n =>
        let kd2 := setKey kd1 "d_scaling"
          (.list ((pySlice hs ki1 n).map .float))
        let kd3 := setKey kd2 "width"
          (.list ((pySlice hs (ki1 + n) n).map .float))
        (.ok (ki1 + 2 * n), kd3)
  else if ktype == .str "quadratic" then
    match getKey kd1 "slope" with
    | .error e => (.error e, kd1)
    | .ok s =>
      match pyLen s with
      | .error e => (.error e, kd1)
      | .ok n =>
        let theta := pySlice hs ki1 (n + 1)
        let kd2 := setKey kd1 "slope" (.list ((theta.take n).map .float))
        let kd3 := setKey kd2 "degree"
          (.list ((theta.drop n).map .float))
        (.ok (ki1 + n + 1), kd3)
  else if ktype == .str "linear" then
    (.ok ki1, kd1)
  else if ktype == .str "constant" then
    match pyIndex hs ki1 with
    | .error e => (.error e, kd1)
    | .ok q => (.ok (ki1 + 1), setKey kd1 "const" (.float q))
  else
    match getKey kd1 "hyperparameters" with
    | .error e => (.error e, kd1)
    | .ok hv =>
      match pyLen hv with
      | .error e => (.error e, kd1)
      | .ok n =>
        (.ok ki1,
         setKey kd1 "hyperparameters"
           (.list ((pySlice hs ki1 n).map .float)))

/-- One block of `list2kdict`: consume elements of the flat vector starting
at cursor `ki`, updating the block in place.  Returns the new cursor (or
the error) together with the state of the block at that moment, so that
mutations already performed before an error stay visible.  Note the final
generic branch does not advance the cursor — the source omits `ki += N_D`
there. -/
def decodeBlock (hs : List ℚ) (kd : KDict) (ki : Nat) :
    Except PyErr Nat × KDict :=
  match getKey kd "type" with
  | .error e => (.error e, kd)
  | .ok ktype =>
    match decodeScaling hs kd ki with
    | (.error e, kd1) => (.error e, kd1)
    | (.ok ki1, kd1) => decodeDispatch hs ktype kd1 ki1

/-- The `for key in kernel_dict` loop of `list2kdict`, threading the cursor
and returning the (possibly partially mutated) kernel dictionary alongside
the outcome. -/
def list2kdictGo (hs : List ℚ) : KernelSpec → Nat →
    Except PyErr Unit × KernelSpec
  | [], _ => (.ok (), [])
  | (key, kd) :: rest, ki =>
      match decodeBlock hs kd ki with
      | (.error e, kd1) => (.error e, (key, kd1) :: rest)
      | (.ok ki2, kd1) =>
          let (r, rest2) := list2kdictGo hs rest ki2
          (r, (key, kd1) :: rest2)

/-- `list2kdict`: decode the flat vector back into the kernel dictionary
(the caller observes the mutated dictionary only when no exception is
raised; `list2kdictGo` exposes the mutations in every case). -/
def list2kdict (hs : List ℚ) (spec : KernelSpec) :
    Except PyErr KernelSpec :=
  match list2kdictGo hs spec 0 with
  | (.ok _, s) => .ok s
  | (.error e, _) => .error e

/-! ## Predicates and concrete inputs used by the verification -/

/-- Abstract description of one kernel block of a directly recognized
non-quadratic, non-generic variant: the type tag with its numeric
parameters.  Quantifying the round-trip theorem over these (plus an
optional scaling) captures the block shapes for which the codec is an
exact inverse. -/
inductive CoreBlock where
  | linear
  | constant (c : ℚ)
  | gaussian (ws : List ℚ)
  | sqe (ws : List ℚ)
  | laplacian (ws : List ℚ)
  | scaledSqe (ds ws : List ℚ)

/-- The `type` string of a core block. -/
def coreTypeName : CoreBlock → String
  | .linear => "linear"
  | .constant _ => "constant"
  | .gaussian _ => "gaussian"
  | .sqe _ => "sqe"
  | .laplacian _ => "laplacian"
  | .scaledSqe _ _ => "scaled_sqe"

/-- The parameter entries of a core block's dictionary. -/
def coreParams : CoreBlock → KDict
  | .linear => []
  | .constant c => [("const", .float c)]
  | .gaussian ws => [("width", .list (ws.map .float))]
  | .sqe ws => [("width", .list (ws.map .float))]
  | .laplacian ws => [("width", .list (ws.map .float))]
  | .scaledSqe ds ws =>
      [("d_scaling", .list (ds.map .float)), ("width", .list (ws.map .float))]

/-- The kernel dictionary of a core block, with an optional scaling. -/
def coreDict (b : CoreBlock) (sc : Option ℚ) : KDict :=
  ("type", .str (coreTypeName b)) :: coreParams b ++
    (match sc with
     | none => []
     | some q => [("scaling", .float q)])

/-- The numeric parameters a core block contributes to the flat vector,
in encoding order. -/
def coreTheta : CoreBlock → List ℚ
  | .linear => []
  | .constant c => [c]
  | .gaussian ws => ws
  | .sqe ws => ws
  | .laplacian ws => ws
  | .scaledSqe ds ws => ds ++ ws

/-- The scaling contribution to the flat vector. -/
def coreScaling : Option ℚ → List ℚ
  | none => []
  | some q => [q]

/-- The flat segment of one block: scaling first, then the parameters. -/
def coreRow (b : CoreBlock) (sc : Option ℚ) : List ℚ :=
  coreScaling sc ++ coreTheta b

/-- The scaling list `kdict2list` returns for a core block. -/
def coreScalingVals : Option ℚ → List Val
  | none => []
  | some q => [.float q]

/-- The theta list `kdict2list` returns for a core block. -/
def coreThetaVals : CoreBlock → List Val
  | .linear => []
  | .constant c => [.float c]
  | .gaussian ws => ws.map .float
  | .sqe ws => ws.map .float
  | .laplacian ws => ws.map .float
  | .scaledSqe ds ws => ds.map .float ++ ws.map .float

/-- A named sequence of core blocks as a kernel dictionary. -/
def coreSpec (bs : List (String × CoreBlock × Option ℚ)) : KernelSpec :=
  bs.map (fun x => (x.1, coreDict x.2.1 x.2.2))

/-- The flat vector a core-block dictionary encodes to. -/
def coreFlat (bs : List (String × CoreBlock × Option ℚ)) : List ℚ :=
  (bs.map (fun x => coreRow x.2.1 x.2.2)).flatten

/-- The decoder consumes `len(width)` elements for each of `d_scaling`
and `width`, so the exact round trip for scaled_sqe needs the two lists
to have equal length. -/
def coreOk : CoreBlock → Bool
  | .scaledSqe ds ws => ds.length == ws.length
  | _ => true

/-- Abstract description of one kernel block of any of the decoder's
recognized consumption shapes — including quadratic and the generic
hyperparameters path — used to characterize exactly which decodes can
raise on a short flat vector. -/
inductive DecBlock where
  | linear
  | constant (c : ℚ)
  | gaussian (ws : List ℚ)
  | sqe (ws : List ℚ)
  | laplacian (ws : List ℚ)
  | scaledSqe (ds ws : List ℚ)
  | quadratic (ss : List ℚ) (dg : ℚ)
  | generic (qs : List ℚ)

/-- The `type` string of a decode block (the generic path is reached for
any unrecognized type; `user` is one such). -/
def decTypeName : DecBlock → String
  | .linear => "linear"
  | .constant _ => "constant"
  | .gaussian _ => "gaussian"
  | .sqe _ => "sqe"
  | .laplacian _ => "laplacian"
  | .scaledSqe _ _ => "scaled_sqe"
  | .quadratic _ _ => "quadratic"
  | .generic _ => "user"

/-- The parameter entries of a decode block's dictionary. -/
def decParams : DecBlock → KDict
  | .linear => []
  | .constant c => [("const", .float c)]
  | .gaussian ws => [("width", .list (ws.map .float))]
  | .sqe ws => [("width", .list (ws.map .float))]
  | .laplacian ws => [("width", .list (ws.map .float))]
  | .scaledSqe ds ws =>
      [("d_scaling", .list (ds.map .float)), ("width", .list (ws.map .float))]
  | .quadratic ss dg =>
      [("slope", .list (ss.map .float)), ("degree", .float dg)]
  | .generic qs => [("hyperparameters", .list (qs.map .float))]

/-- The kernel dictionary of a decode block, with an optional scaling. -/
def decDict (b : DecBlock) (sc : Option ℚ) : KDict :=
  ("type", .str (decTypeName b)) :: decParams b ++
    (match sc with
     | none => []
     | some q => [("scaling", .float q)])

/-- The decoder's per-type cursor advance: determined by the stored
parameter lengths alone, because slices advance the cursor fully even
when truncated, and the generic branch advances nothing. -/
def decAdvance : DecBlock → Nat
  | .linear => 0
  | .constant _ => 1
  | .gaussian ws => ws.length
  | .sqe ws => ws.length
  | .laplacian ws => ws.length
  | .scaledSqe _ ws => 2 * ws.length
  | .quadratic ss _ => ss.length + 1
  | .generic _ => 0

/-- The whole cursor advance of one decode iteration: one element for a
scaling key, then the per-type advance. -/
def rowAdv (b : DecBlock) (sc : Option ℚ) : Nat :=
  (match sc with
   | none => 0
   | some _ => 1) + decAdvance b

/-- Offsets (from the block's start cursor) at which the decoder reads
the flat vector by direct indexing: the scaling element and a constant
block's value; all other consumption is by slicing and cannot raise. -/
def decReads (b : DecBlock) (sc : Option ℚ) : List Nat :=
  (match sc with
   | none => []
   | some _ => [0]) ++
  (match b with
   | .constant _ =>
       [(match sc with
         | none => 0
         | some _ => 1)]
   | _ => [])

/-- A named sequence of decode blocks as a kernel dictionary. -/
def decSpec (bs : List (String × DecBlock × Option ℚ)) : KernelSpec :=
  bs.map (fun x => (x.1, decDict x.2.1 x.2.2))

/-- The absolute cursor positions of all directly indexed reads of a
decode, fixed by the spec alone. -/
def decReadPositions : List (String × DecBlock × Option ℚ) → Nat → List Nat
  | [], _ => []
  | x :: rest, ki =>
      (decReads x.2.1 x.2.2).map (fun o => ki + o) ++
        decReadPositions rest (ki + rowAdv x.2.1 x.2.2)

/-- A kernel dictionary accepted by `prepare_kernels` whose round trip
through the codec corrupts the constant block: the generic decode branch
for the `user` block never advances the cursor. -/
def userConstSpec : KernelSpec :=
  [("a", [("type", .str "user"), ("hyperparameters", .list [.float 1])]),
   ("b", [("type", .str "constant"), ("const", .float 2)])]

/-- `userConstSpec` after decoding its own encoding: the constant has been
overwritten with the user block's hyperparameter. -/
def userConstSpecDecoded : KernelSpec :=
  [("a", [("type", .str "user"), ("hyperparameters", .list [.float 1])]),
   ("b", [("type", .str "constant"), ("const", .float 1)])]

/-- Two gaussian blocks where the first declares `features`, leaking a
smaller dimension count into the second block's broadcast. -/
def featLeakSpec : KernelSpec :=
  [("k1", [("type", .str "gaussian"), ("width", .float 1),
           ("features", .list [.int 0])]),
   ("k2", [("type", .str "gaussian"), ("width", .float 1)])]

/-- A gaussian block carrying a `bounds` override. -/
def gaussBoundsSpec : KernelSpec :=
  [("k1", [("type", .str "gaussian"), ("width", .float 1),
           ("bounds", .tuple [.tuple [.float 0, .float 1]])])]

/-- A quadratic block carrying a `bounds` override. -/
def quadBoundsSpec : KernelSpec :=
  [("k1", [("type", .str "quadratic"), ("slope", .float 1),
           ("degree", .float 2),
           ("bounds", .tuple [.tuple [.float 0, .float 1]])])]

/-- A gaussian block with two widths, used to decode a one-element flat
vector. -/
def twoWidthSpec : KernelSpec :=
  [("k1", [("type", .str "gaussian"), ("width", .list [.float 1, .float 1])])]

/-- A gaussian block followed by a constant block; decoding a one-element
vector into it fails at the constant after the width was overwritten. -/
def gaussConstSpec : KernelSpec :=
  [("k1", [("type", .str "gaussian"), ("width", .list [.float 1])]),
   ("k2", [("type", .str "constant"), ("const", .float 2)])]

/-- The gaussian width block of the bound-count scenario. -/
def boundCountSpec : KernelSpec :=
  [("k1", [("type", .str "gaussian"), ("width", .list [.float 1, .float 1])]),
   ("k2", [("type", .str "constant"), ("const", .float 1)])]

/-! ## Theorems -/

/-! ### Shared lemmas about the dictionary and slicing primitives -/

theorem hasKey_of_getKey {kd : KDict} {k : String} {v : Val}
    (h : getKey kd k = .ok v) : hasKey kd k = true := by
  unfold getKey at h
  cases hf : kd.find? (fun p => p.1 == k) with
  | none => rw [hf] at h; exact absurd h (by simp)
  | some p =>
      have hmem := List.mem_of_find?_eq_some hf
      have hp := List.find?_some hf
      unfold hasKey
      exact List.any_eq_true.mpr ⟨p, hmem, hp⟩

theorem getKey_nil_error {k : String} : getKey [] k = .error .keyError := by
  rfl

theorem getKey_cons (k2 : String) (v2 : Val) (rest : KDict) (k : String) :
    getKey ((k2, v2) :: rest) k =
      if k2 == k then .ok v2 else getKey rest k := by
  unfold getKey
  simp only [List.find?]
  cases hk : (k2 == k) with
  | true => rfl
  | false => rfl

theorem hasKey_cons (k2 : String) (v2 : Val) (rest : KDict) (k : String) :
    hasKey ((k2, v2) :: rest) k = ((k2 == k) || hasKey rest k) := by
  simp [hasKey]

/-- Writing back the value a key already holds leaves the dictionary
unchanged. -/
theorem setKey_self {kd : KDict} {k : String} {v : Val}
    (h : getKey kd k = .ok v) : setKey kd k v = kd := by
  induction kd with
  | nil => exact absurd h (by simp [getKey])
  | cons p rest ih =>
      obtain ⟨k2, v2⟩ := p
      rw [getKey_cons] at h
      unfold setKey
      by_cases hk : (k2 == k) = true
      · rw [if_pos hk] at h
        injection h with h
        rw [if_pos hk, eq_of_beq hk, h]
      · rw [if_neg hk] at h
        rw [if_neg hk]
        rw [ih h]

/-- Setting one key does not change the presence of another. -/
theorem hasKey_setKey_ne (kd : KDict) (k k2 : String) (v : Val)
    (hne : (k == k2) = false) :
    hasKey (setKey kd k v) k2 = hasKey kd k2 := by
  induction kd with
  | nil => simp [setKey, hasKey, hne]
  | cons p rest ih =>
      obtain ⟨k3, v3⟩ := p
      unfold setKey
      by_cases hk : (k3 == k) = true
      · rw [if_pos hk]
        simp only [hasKey, List.any_cons]
        rw [eq_of_beq hk]
      · rw [if_neg hk]
        simp only [hasKey, List.any_cons] at ih ⊢
        rw [ih]

theorem getElem?_of_drop_cons {hs : List ℚ} {ki : Nat} {q : ℚ}
    {rest : List ℚ} (h : hs.drop ki = q :: rest) : hs[ki]? = some q := by
  have h0 := List.getElem?_drop hs ki 0
  rw [h] at h0
  simpa using h0.symm

theorem pyIndex_of_drop_cons {hs : List ℚ} {ki : Nat} {q : ℚ}
    {rest : List ℚ} (h : hs.drop ki = q :: rest) :
    pyIndex hs ki = .ok q := by
  unfold pyIndex
  rw [getElem?_of_drop_cons h]

theorem pySlice_of_drop_append {hs seg rest : List ℚ} {ki : Nat}
    (h : hs.drop ki = seg ++ rest) : pySlice hs ki seg.length = seg := by
  unfold pySlice
  rw [h]
  exact List.take_left seg rest

theorem drop_of_drop_append {hs seg rest : List ℚ} {ki : Nat}
    (h : hs.drop ki = seg ++ rest) :
    hs.drop (ki + seg.length) = rest := by
  have : hs.drop (ki + seg.length) = (hs.drop ki).drop seg.length := by
    rw [List.drop_drop, Nat.add_comm]
  rw [this, h]
  exact List.drop_left seg rest

theorem valsToFloats_map_float (l : List ℚ) :
    valsToFloats (l.map Val.float) = .ok l := by
  induction l with
  | nil => rfl
  | cons q rest ih =>
      simp only [List.map_cons, valsToFloats, valToFloat, ih]

/-- Claim C2 (code bug, evaluation at the failing input): a gaussian block
carrying a `bounds` override is rejected by `prepare_kernels` with an
assertion (configuration) error, because `bounds` is missing from the
setup routine's allowed-key list; the override branch that would consume
it is dead code. -/
theorem gaussian_bounds_key_rejected :
    prepare_kernels gaussBoundsSpec (.tuple []) false 2 =
      .error .assertionError := by
  rfl

/-- Claim C5 (code bug, evaluation at the failing input): a quadratic block
carrying a `bounds` override never reaches the two bounds-appending
branches of `_quadratic_setup`; the allowed-key assertion rejects the
block first. -/
theorem quadratic_bounds_key_rejected :
    prepare_kernels quadBoundsSpec (.tuple []) false 2 =
      .error .assertionError := by
  rfl

/-- Claim C1 (counterexample): `userConstSpec` is a kernel dictionary the
normalizer accepts, yet decoding its own encoding does not reproduce it —
the generic decode branch never advances the cursor, so the constant block
reads the user block's value. -/
theorem roundtrip_user_block_cex :
    (∃ out, prepare_kernels userConstSpec (.tuple []) false 1 = .ok out) ∧
    kdicts2list userConstSpec (some 1) = .ok [1, 2] ∧
    list2kdict [1, 2] userConstSpec = .ok userConstSpecDecoded ∧
    userConstSpecDecoded ≠ userConstSpec := by
  refine ⟨⟨_, rfl⟩, rfl, rfl, by decide⟩

/-- Claim C3 (counterexample): with ambient dimension 3, the second block
of `featLeakSpec` (which has no `features` or `dimension` key) has its
scalar width broadcast to a single-element list — the first block's
`features` length leaked into the loop-carried dimension count — instead
of to the three-element list the caller-supplied ambient count would
give. -/
theorem dimension_leaks_across_blocks_cex :
    prepare_kernels featLeakSpec (.tuple []) false 3 =
      .ok ([("k1", [("type", .str "gaussian"),
                    ("width", .list [.float 1]),
                    ("features", .list [.int 0])]),
            ("k2", [("type", .str "gaussian"),
                    ("width", .list [.float 1])])],
           [.tuple [.float (1 / 1000000000000), .pyNone],
            .tuple [.float (1 / 1000000000000), .pyNone],
            .tuple []]) ∧
    Val.list [.float 1] ≠ .list (List.replicate 3 (.float 1)) := by
  exact ⟨rfl, by decide⟩

/-- Claim C4 (counterexample): decoding the one-element flat vector `[5]`
into a gaussian block with two widths does not raise a length error; the
slice silently truncates and the block comes back with a single width. -/
theorem short_vector_gaussian_truncates_cex :
    list2kdict [5] twoWidthSpec =
      .ok [("k1", [("type", .str "gaussian"),
                   ("width", .list [.float 5])])] ∧
    (1 : Nat) < 2 := by
  exact ⟨rfl, by decide⟩

/-- Claim C10: decoding `[9]` into a gaussian-then-constant dictionary
fails at the constant block with an index error, but by then the gaussian
block's width has already been overwritten in the caller's dictionary. -/
theorem decode_mutates_prefix_before_error :
    list2kdictGo [9] gaussConstSpec 0 =
      (.error .indexError,
       [("k1", [("type", .str "gaussian"), ("width", .list [.float 9])]),
        ("k2", [("type", .str "constant"), ("const", .float 2)])]) ∧
    list2kdict [9] gaussConstSpec = .error .indexError ∧
    Val.list [.float 9] ≠ .list [.float 1] := by
  exact ⟨rfl, rfl, by decide⟩

/-- Unfolding `prepare_kernels` into its loop and the trailing
regularization append. -/
theorem prepare_kernels_eq (spec : KernelSpec) (reg : Val) (eg : Bool)
    (d : Nat) :
    prepare_kernels spec reg eg d =
      match prepareBlocks spec [] d (defaultBoundsFor eg) with
      | .error e => .error e
      | .ok (s, b, _) => .ok (s, b ++ [reg]) := by
  unfold prepare_kernels
  cases prepareBlocks spec [] d (defaultBoundsFor eg) with
  | error e => rfl
  | ok t =>
      obtain ⟨s, b, n⟩ := t
      rfl

/-- Unfolding one step of the `prepare_kernels` loop. -/
theorem prepareBlocks_cons (key : String) (kd : KDict) (rest : KernelSpec)
    (bounds : List Val) (nd : Nat) (db : List Val) :
    prepareBlocks ((key, kd) :: rest) bounds nd db =
      match prepareBlock kd bounds nd db with
      | .error e => .error e
      | .ok (kd2, b2, nd2) =>
          match prepareBlocks rest b2 nd2 db with
          | .error e => .error e
          | .ok (rest2, b3, nd3) => .ok ((key, kd2) :: rest2, b3, nd3) := by
  rfl

/-- The `prepare_kernels` loop distributes over list append. -/
theorem prepareBlocks_append (xs ys : KernelSpec) (b : List Val) (n : Nat)
    (db : List Val) :
    prepareBlocks (xs ++ ys) b n db =
      match prepareBlocks xs b n db with
      | .error e => .error e
      | .ok (s1, b1, n1) =>
          match prepareBlocks ys b1 n1 db with
          | .error e => .error e
          | .ok (s2, b2, n2) => .ok (s1 ++ s2, b2, n2) := by
  induction xs generalizing b n with
  | nil =>
      simp only [List.nil_append, prepareBlocks]
      cases prepareBlocks ys b n db with
      | error e => rfl
      | ok t =>
          obtain ⟨s2, b2, n2⟩ := t
          rfl
  | cons p rest ih =>
      obtain ⟨key, kd⟩ := p
      rw [List.cons_append, prepareBlocks_cons, prepareBlocks_cons]
      simp only [ih]
      cases prepareBlock kd b n db with
      | error e => rfl
      | ok t =>
          obtain ⟨kd2, b2, nd2⟩ := t
          dsimp only
          cases prepareBlocks rest b2 nd2 db with
          | error e => rfl
          | ok t2 =>
              obtain ⟨s1, b3, n3⟩ := t2
              dsimp only
              cases prepareBlocks ys b3 n3 db with
              | error e => rfl
              | ok t3 =>
                  obtain ⟨s2, b4, n4⟩ := t3
                  rfl

/-- Claim C6: normalizing the gaussian-plus-constant dictionary with
ambient dimension 2 and regularization bounds `(0, 1)` yields exactly four
bound entries, the last being the regularization pair; and in general a
successful `prepare_kernels` always returns the regularization bounds as
the final entry. -/
theorem bounds_count_and_reg_last :
    (∃ s bds,
        prepare_kernels boundCountSpec (.tuple [.float 0, .float 1]) false 2
          = .ok (s, bds) ∧
        bds.length = 4 ∧
        bds.getLast? = some (.tuple [.float 0, .float 1])) ∧
    (∀ (spec : KernelSpec) (reg : Val) (eg : Bool) (d : Nat) s bds,
        prepare_kernels spec reg eg d = .ok (s, bds) →
        bds.getLast? = some reg) := by
  constructor
  · exact ⟨_, _, rfl, rfl, rfl⟩
  · intro spec reg eg d s bds h
    rw [prepare_kernels_eq] at h
    split at h
    · exact absurd h (by simp)
    · rename_i s1 b1 n1 heq
      injection h with h
      injection h with h1 h2
      rw [← h2]
      exact List.getLast?_concat b1

theorem getKey_decDict_type (b : DecBlock) (sc : Option ℚ) :
    getKey (decDict b sc) "type" = .ok (.str (decTypeName b)) := by
  rfl

/-- One decode iteration on a decode-block dictionary is the scaling step
followed by the per-type dispatch. -/
theorem decodeBlock_dec_eq (b : DecBlock) (sc : Option ℚ) (hs : List ℚ)
    (ki : Nat) :
    decodeBlock hs (decDict b sc) ki =
      match decodeScaling hs (decDict b sc) ki with
      | (.error e, kd1) => (.error e, kd1)
      | (.ok ki1, kd1) =>
          decodeDispatch hs (.str (decTypeName b)) kd1 ki1 := by
  unfold decodeBlock
  rw [getKey_decDict_type]

/-- Without a scaling key the scaling step is a no-op. -/
theorem decodeScaling_dec_none (b : DecBlock) (hs : List ℚ) (ki : Nat) :
    decodeScaling hs (decDict b none) ki = (.ok ki, decDict b none) := by
  cases b <;> rfl

/-- With a scaling key and the cursor in range, the scaling step consumes
one element and stores it. -/
theorem decodeScaling_dec_some (b : DecBlock) (q v : ℚ) (hs : List ℚ)
    (ki : Nat) (hv : hs[ki]? = some v) :
    decodeScaling hs (decDict b (some q)) ki =
      (.ok (ki + 1), decDict b (some v)) := by
  have hidx : pyIndex hs ki = .ok v := by
    unfold pyIndex
    rw [hv]
  unfold decodeScaling
  rw [hidx]
  cases b <;> rfl

/-- With a scaling key and the cursor out of range, the scaling step
raises the index error. -/
theorem decodeScaling_dec_some_err (b : DecBlock) (q : ℚ) (hs : List ℚ)
    (ki : Nat) (hge : hs.length ≤ ki) :
    decodeScaling hs (decDict b (some q)) ki =
      (.error .indexError, decDict b (some q)) := by
  have hidx : pyIndex hs ki = .error .indexError := by
    unfold pyIndex
    rw [List.getElem?_eq_none hge]
  unfold decodeScaling
  rw [hidx]
  cases b <;> rfl

/-- The per-type dispatch on a decode block succeeds for every flat
vector, however short — slices truncate silently — except that a constant
block needs its directly indexed read in range; the cursor advances by
the spec-determined amount either way. -/
theorem decodeDispatch_dec_ok (b : DecBlock) (sc : Option ℚ) (hs : List ℚ)
    (ki1 : Nat) (hc : ∀ c : ℚ, b = .constant c → ki1 < hs.length) :
    ∃ kd', decodeDispatch hs (.str (decTypeName b)) (decDict b sc) ki1 =
      (.ok (ki1 + decAdvance b), kd') := by
  cases b with
  | linear => exact ⟨decDict .linear sc, rfl⟩
  | constant c =>
      have hlt : ki1 < hs.length := hc c rfl
      have hidx : pyIndex hs ki1 = .ok hs[ki1] := by
        unfold pyIndex
        rw [List.getElem?_eq_getElem hlt]
      refine ⟨setKey (decDict (.constant c) sc) "const"
        (.float hs[ki1]), ?_⟩
      dsimp only [decTypeName]
      unfold decodeDispatch
      rw [hidx]
      rfl
  | gaussian ws =>
      refine ⟨setKey (decDict (.gaussian ws) sc) "width"
        (.list ((pySlice hs ki1 ws.length).map .float)), ?_⟩
      dsimp only [decTypeName]
      rw [show decodeDispatch hs (.str "gaussian")
            (decDict (.gaussian ws) sc) ki1 =
          (.ok (ki1 + (ws.map Val.float).length),
           setKey (decDict (.gaussian ws) sc) "width"
             (.list ((pySlice hs ki1
               (ws.map Val.float).length).map .float))) from rfl]
      rw [List.length_map]
      rfl
  | sqe ws =>
      refine ⟨setKey (decDict (.sqe ws) sc) "width"
        (.list ((pySlice hs ki1 ws.length).map .float)), ?_⟩
      dsimp only [decTypeName]
      rw [show decodeDispatch hs (.str "sqe")
            (decDict (.sqe ws) sc) ki1 =
          (.ok (ki1 + (ws.map Val.float).length),
           setKey (decDict (.sqe ws) sc) "width"
             (.list ((pySlice hs ki1
               (ws.map Val.float).length).map .float))) from rfl]
      rw [List.length_map]
      rfl
  | laplacian ws =>
      refine ⟨setKey (decDict (.laplacian ws) sc) "width"
        (.list ((pySlice hs ki1 ws.length).map .float)), ?_⟩
      dsimp only [decTypeName]
      rw [show decodeDispatch hs (.str "laplacian")
            (decDict (.laplacian ws) sc) ki1 =
          (.ok (ki1 + (ws.map Val.float).length),
           setKey (decDict (.laplacian ws) sc) "width"
             (.list ((pySlice hs ki1
               (ws.map Val.float).length).map .float))) from rfl]
      rw [List.length_map]
      rfl
  | scaledSqe ds ws =>
      refine ⟨setKey (setKey (decDict (.scaledSqe ds ws) sc) "d_scaling"
          (.list ((pySlice hs ki1 ws.length).map .float))) "width"
          (.list ((pySlice hs (ki1 + ws.length) ws.length).map .float)), ?_⟩
      dsimp only [decTypeName]
      rw [show decodeDispatch hs (.str "scaled_sqe")
            (decDict (.scaledSqe ds ws) sc) ki1 =
          (.ok (ki1 + 2 * (ws.map Val.float).length),
           setKey (setKey (decDict (.scaledSqe ds ws) sc) "d_scaling"
               (.list ((pySlice hs ki1 (ws.map Val.float).length).map .float)))
             "width"
             (.list ((pySlice hs (ki1 + (ws.map Val.float).length)
               (ws.map Val.float).length).map .float))) from rfl]
      rw [List.length_map]
      rfl
  | quadratic ss dg =>
      refine ⟨setKey (setKey (decDict (.quadratic ss dg) sc) "slope"
          (.list (((pySlice hs ki1 (ss.length + 1)).take ss.length).map
            .float))) "degree"
          (.list (((pySlice hs ki1 (ss.length + 1)).drop ss.length).map
            .float)), ?_⟩
      dsimp only [decTypeName]
      rw [show decodeDispatch hs (.str "quadratic")
            (decDict (.quadratic ss dg) sc) ki1 =
          (.ok (ki1 + (ss.map Val.float).length + 1),
           setKey (setKey (decDict (.quadratic ss dg) sc) "slope"
               (.list (((pySlice hs ki1 ((ss.map Val.float).length + 1)).take
                 (ss.map Val.float).length).map .float)))
             "degree"
             (.list (((pySlice hs ki1 ((ss.map Val.float).length + 1)).drop
               (ss.map Val.float).length).map .float))) from rfl]
      rw [List.length_map]
      rfl
  | generic qs =>
      refine ⟨setKey (decDict (.generic qs) sc) "hyperparameters"
        (.list ((pySlice hs ki1 qs.length).map .float)), ?_⟩
      dsimp only [decTypeName]
      rw [show decodeDispatch hs (.str "user")
            (decDict (.generic qs) sc) ki1 =
          (.ok ki1,
           setKey (decDict (.generic qs) sc) "hyperparameters"
             (.list ((pySlice hs ki1
               (qs.map Val.float).length).map .float))) from rfl]
      rw [List.length_map]
      rfl

/-- A constant block's per-type read raises when the cursor is out of
range. -/
theorem decodeDispatch_constant_err (c : ℚ) (sc : Option ℚ) (hs : List ℚ)
    (ki1 : Nat) (hge : hs.length ≤ ki1) :
    (decodeDispatch hs (.str "constant")
      (decDict (.constant c) sc) ki1).1 = .error .indexError := by
  have hidx : pyIndex hs ki1 = .error .indexError := by
    unfold pyIndex
    rw [List.getElem?_eq_none hge]
  unfold decodeDispatch
  rw [hidx]
  rfl

/-- One decode iteration succeeds, with the spec-determined cursor
advance, whenever all the block's directly indexed reads are in range. -/
theorem decodeBlock_dec_ok (b : DecBlock) (sc : Option ℚ) (hs : List ℚ)
    (ki : Nat) (hin : ∀ o ∈ decReads b sc, ki + o < hs.length) :
    ∃ kd', decodeBlock hs (decDict b sc) ki =
      (.ok (ki + rowAdv b sc), kd') := by
  rw [decodeBlock_dec_eq]
  cases sc with
  | none =>
      rw [decodeScaling_dec_none]
      dsimp only
      have hc : ∀ c : ℚ, b = .constant c → ki < hs.length := by
        intro c hb
        subst hb
        have := hin 0 (by simp [decReads])
        simpa using this
      obtain ⟨kd', hkd⟩ := decodeDispatch_dec_ok b none hs ki hc
      refine ⟨kd', ?_⟩
      rw [hkd]
      have harr : ki + decAdvance b = ki + rowAdv b none := by
        simp [rowAdv]
      rw [harr]
  | some q =>
      have hki : ki < hs.length := by
        have := hin 0 (by simp [decReads])
        simpa using this
      rw [decodeScaling_dec_some b q hs[ki] hs ki
        (List.getElem?_eq_getElem hki)]
      dsimp only
      have hc : ∀ c : ℚ, b = .constant c → ki + 1 < hs.length := by
        intro c hb
        subst hb
        exact hin 1 (by simp [decReads])
      obtain ⟨kd', hkd⟩ :=
        decodeDispatch_dec_ok b (some hs[ki]) hs (ki + 1) hc
      refine ⟨kd', ?_⟩
      rw [hkd]
      have harr : ki + 1 + decAdvance b = ki + rowAdv b (some q) := by
        simp [rowAdv]
        omega
      rw [harr]

/-- One decode iteration raises the index error whenever some directly
indexed read of the block is out of range. -/
theorem decodeBlock_dec_err (b : DecBlock) (sc : Option ℚ) (hs : List ℚ)
    (ki : Nat) (hout : ∃ o ∈ decReads b sc, hs.length ≤ ki + o) :
    (decodeBlock hs (decDict b sc) ki).1 = .error .indexError := by
  rw [decodeBlock_dec_eq]
  obtain ⟨o, ho, hge⟩ := hout
  cases sc with
  | none =>
      cases b with
      | constant c =>
          have ho0 : o = 0 := by simpa [decReads] using ho
          subst ho0
          rw [decodeScaling_dec_none]
          dsimp only [decTypeName]
          exact decodeDispatch_constant_err c none hs ki (by simpa using hge)
      | linear => exact absurd ho (by simp [decReads])
      | gaussian ws => exact absurd ho (by simp [decReads])
      | sqe ws => exact absurd ho (by simp [decReads])
      | laplacian ws => exact absurd ho (by simp [decReads])
      | scaledSqe ds ws => exact absurd ho (by simp [decReads])
      | quadratic ss dg => exact absurd ho (by simp [decReads])
      | generic qs => exact absurd ho (by simp [decReads])
  | some q =>
      by_cases hki : ki < hs.length
      · rw [decodeScaling_dec_some b q hs[ki] hs ki
          (List.getElem?_eq_getElem hki)]
        dsimp only
        cases b with
        | constant c =>
            have ho01 : o = 0 ∨ o = 1 := by simpa [decReads] using ho
            rcases ho01 with h0 | h1
            · subst h0
              omega
            · subst h1
              dsimp only [decTypeName]
              exact decodeDispatch_constant_err c (some hs[ki]) hs (ki + 1)
                (by omega)
        | linear =>
            have ho0 : o = 0 := by simpa [decReads] using ho
            omega
        | gaussian ws =>
            have ho0 : o = 0 := by simpa [decReads] using ho
            omega
        | sqe ws =>
            have ho0 : o = 0 := by simpa [decReads] using ho
            omega
        | laplacian ws =>
            have ho0 : o = 0 := by simpa [decReads] using ho
            omega
        | scaledSqe ds ws =>
            have ho0 : o = 0 := by simpa [decReads] using ho
            omega
        | quadratic ss dg =>
            have ho0 : o = 0 := by simpa [decReads] using ho
            omega
        | generic qs =>
            have ho0 : o = 0 := by simpa [decReads] using ho
            omega
      · rw [decodeScaling_dec_some_err b q hs ki (by omega)]

theorem decReadPositions_cons (key : String) (b : DecBlock)
    (sc : Option ℚ) (rest : List (String × DecBlock × Option ℚ))
    (ki : Nat) :
    decReadPositions ((key, b, sc) :: rest) ki =
      (decReads b sc).map (fun o => ki + o) ++
        decReadPositions rest (ki + rowAdv b sc) := by
  rfl

/-- When every directly indexed read is in range, the whole decode loop
succeeds, however short the vector. -/
theorem list2kdictGo_dec_ok (bs : List (String × DecBlock × Option ℚ))
    (hs : List ℚ) :
    ∀ ki, (∀ p ∈ decReadPositions bs ki, p < hs.length) →
      ∃ spec2, list2kdictGo hs (decSpec bs) ki = (.ok (), spec2) := by
  induction bs with
  | nil =>
      intro ki _
      exact ⟨[], rfl⟩
  | cons x rest ih =>
      intro ki hin
      obtain ⟨key, b, sc⟩ := x
      have hinb : ∀ o ∈ decReads b sc, ki + o < hs.length := by
        intro o ho
        refine hin (ki + o) ?_
        rw [decReadPositions_cons]
        exact List.mem_append_left _ (List.mem_map_of_mem _ ho)
      obtain ⟨kd', hkd⟩ := decodeBlock_dec_ok b sc hs ki hinb
      obtain ⟨spec2, hrest⟩ := ih (ki + rowAdv b sc) (fun p hp => hin p (by
        rw [decReadPositions_cons]
        exact List.mem_append_right _ hp))
      refine ⟨(key, kd') :: spec2, ?_⟩
      show list2kdictGo hs ((key, decDict b sc) :: decSpec rest) ki = _
      unfold list2kdictGo
      rw [hkd]
      dsimp only
      rw [hrest]

/-- When some directly indexed read is out of range, the whole decode
loop raises the index error. -/
theorem list2kdictGo_dec_err (bs : List (String × DecBlock × Option ℚ))
    (hs : List ℚ) :
    ∀ ki, (∃ p ∈ decReadPositions bs ki, hs.length ≤ p) →
      (list2kdictGo hs (decSpec bs) ki).1 = .error .indexError := by
  induction bs with
  | nil =>
      intro ki hout
      obtain ⟨p, hp, _⟩ := hout
      exact absurd hp (List.not_mem_nil p)
  | cons x rest ih =>
      intro ki hout
      obtain ⟨key, b, sc⟩ := x
      by_cases hblk : ∃ o ∈ decReads b sc, hs.length ≤ ki + o
      · have herr := decodeBlock_dec_err b sc hs ki hblk
        show (list2kdictGo hs ((key, decDict b sc) :: decSpec rest) ki).1 = _
        unfold list2kdictGo
        cases hdb : decodeBlock hs (decDict b sc) ki with
        | mk r kd1 =>
            rw [hdb] at herr
            dsimp only at herr
            cases r with
            | error e =>
                injection herr with herr
                rw [herr]
            | ok ki2 => exact absurd herr (by simp)
      · have hinb : ∀ o ∈ decReads b sc, ki + o < hs.length := by
          intro o ho
          by_contra hno
          exact hblk ⟨o, ho, by omega⟩
        obtain ⟨kd', hkd⟩ := decodeBlock_dec_ok b sc hs ki hinb
        obtain ⟨p, hp, hge⟩ := hout
        have hp2 : p ∈ decReadPositions rest (ki + rowAdv b sc) := by
          rw [decReadPositions_cons] at hp
          rcases List.mem_append.mp hp with h | h
          · obtain ⟨o, ho, hpo⟩ := List.mem_map.mp h
            exact absurd ⟨o, ho, by omega⟩ hblk
          · exact h
        have hrec := ih (ki + rowAdv b sc) ⟨p, hp2, hge⟩
        show (list2kdictGo hs ((key, decDict b sc) :: decSpec rest) ki).1 = _
        unfold list2kdictGo
        rw [hkd]
        dsimp only
        cases hgo : list2kdictGo hs (decSpec rest) (ki + rowAdv b sc) with
        | mk r rest2 =>
            rw [hgo] at hrec
            dsimp only at hrec
            exact hrec

/-- Claim C4 (amended): decoding fails with an index error, not a
dedicated length check, and exactly at the directly indexed reads — a
scaling entry or a constant block's value, whose cursor positions are
fixed by the spec alone because slices advance the cursor by the stored
parameter lengths even when truncated.  If some direct read falls at or
beyond the end of the flat vector the decode raises the index error; if
every direct read is in range the decode returns an updated dictionary
no matter how short the vector is, the slice-consuming parameters
(gaussian/sqe/laplacian, scaled_sqe, quadratic, generic) being silently
truncated, as the counterexample shows. -/
theorem short_vector_index_error_characterization
    (bs : List (String × DecBlock × Option ℚ)) (hs : List ℚ) :
    ((∃ p ∈ decReadPositions bs 0, hs.length ≤ p) →
      list2kdict hs (decSpec bs) = .error .indexError) ∧
    ((∀ p ∈ decReadPositions bs 0, p < hs.length) →
      ∃ spec2, list2kdict hs (decSpec bs) = .ok spec2) := by
  constructor
  · intro hout
    have h := list2kdictGo_dec_err bs hs 0 hout
    unfold list2kdict
    cases hgo : list2kdictGo hs (decSpec bs) 0 with
    | mk r s =>
        rw [hgo] at h
        dsimp only at h
        rw [h]
  · intro hin
    obtain ⟨spec2, hgo⟩ := list2kdictGo_dec_ok bs hs 0 hin
    refine ⟨spec2, ?_⟩
    unfold list2kdict
    rw [hgo]

/-- Witness for claim C4's amended theorem: the empty vector makes a
constant block raise at its direct read, while a two-width gaussian
block (no direct reads) decodes the empty vector without error. -/
theorem short_vector_index_error_characterization_witness :
    list2kdict [] (decSpec [("k", DecBlock.constant 1, none)]) =
      .error .indexError ∧
    ∃ spec2, list2kdict []
      (decSpec [("k2", DecBlock.gaussian [1, 2], none)]) = .ok spec2 :=
  ⟨(short_vector_index_error_characterization
      [("k", DecBlock.constant 1, none)] []).1 (by decide),
   (short_vector_index_error_characterization
      [("k2", DecBlock.gaussian [1, 2], none)] []).2 (by decide)⟩

/-- Witness for claim C6's general part at a concrete input. -/
theorem bounds_count_and_reg_last_witness :
    [Val.tuple [.float 0, .float 1]].getLast? =
      some (Val.tuple [.float 0, .float 1]) := by
  exact bounds_count_and_reg_last.2 [] (.tuple [.float 0, .float 1])
    false 1 [] [.tuple [.float 0, .float 1]] rfl

theorem mem_tupleRepeat {v : Val} {t : List Val} {n : Nat}
    (h : v ∈ tupleRepeat t n) : v ∈ t := by
  unfold tupleRepeat at h
  rw [List.mem_flatten] at h
  obtain ⟨l, hl, hv⟩ := h
  rw [List.eq_of_mem_replicate hl] at hv
  exact hv

/-- A key-presence test is unchanged by the conditional broadcast
rewrite. -/
theorem hasKey_ite_setKey {kd : KDict} {key k2 : String} {w : Val}
    (c : Prop) [Decidable c] (hne : (key == k2) = false) :
    hasKey (if c then setKey kd key w else kd) k2 = hasKey kd k2 := by
  by_cases hc : c
  · rw [if_pos hc, hasKey_setKey_ne _ _ _ _ hne]
  · rw [if_neg hc]

/-- Without a `scaling_bounds` key, `_scaling_setup` appends exactly the
default pair. -/
theorem scalingSetup_no_override {kd : KDict} {b b1 db : List Val}
    (hsb : hasKey kd "scaling_bounds" = false)
    (h : scalingSetup kd b db = .ok b1) : b1 = b ++ db := by
  unfold scalingSetup at h
  rw [hsb] at h
  split at h
  · exact absurd h (by simp)
  · split at h
    · rw [if_neg Bool.false_ne_true] at h
      injection h with h
      exact h.symm
    · exact absurd h (by simp)

theorem scalingStep_no_override {kd : KDict} {b b1 db : List Val}
    (hsb : hasKey kd "scaling_bounds" = false)
    (h : scalingStep kd b db = .ok b1) : b1 = b ∨ b1 = b ++ db := by
  unfold scalingStep at h
  split at h
  · exact .inr (scalingSetup_no_override hsb h)
  · injection h with h
    exact .inl h.symm

/-- Without a `bounds` key, `_constant_setup` appends exactly the default
pair. -/
theorem constantSetup_no_override {kd kd2 : KDict} {b b2 db : List Val}
    {n : Nat} (hb : hasKey kd "bounds" = false)
    (h : constantSetup kd b n db = .ok (kd2, b2)) : b2 = b ++ db := by
  unfold constantSetup at h
  rw [hb] at h
  split at h
  · split at h
    · exact absurd h (by simp)
    · split at h
      · rw [if_neg Bool.false_ne_true] at h
        injection h with h
        exact (congrArg Prod.snd h).symm
      · exact absurd h (by simp)
  · exact absurd h (by simp)

/-- Without a `bounds` key, `_gaussian_setup` appends exactly `nd` default
pairs. -/
theorem gaussianSetup_no_override {kd kd2 : KDict} {b b2 db : List Val}
    {n : Nat} (hb : hasKey kd "bounds" = false)
    (h : gaussianSetup kd b n db = .ok (kd2, b2)) :
    b2 = b ++ tupleRepeat db n := by
  unfold gaussianSetup at h
  split at h
  · split at h
    · cases hg : getKey kd "width" with
      | error e =>
          rw [hg] at h
          exact absurd h (by simp)
      | ok theta =>
          rw [hg] at h
          dsimp only at h
          rw [hasKey_ite_setKey _ (by decide), hb,
            if_neg Bool.false_ne_true] at h
          injection h with h
          exact (congrArg Prod.snd h).symm
    · exact absurd h (by simp)
  · exact absurd h (by simp)

/-- Without a `bounds` key, `_laplacian_setup` appends exactly `nd` default
pairs. -/
theorem laplacianSetup_no_override {kd kd2 : KDict} {b b2 db : List Val}
    {n : Nat} (hb : hasKey kd "bounds" = false)
    (h : laplacianSetup kd b n db = .ok (kd2, b2)) :
    b2 = b ++ tupleRepeat db n := by
  unfold laplacianSetup at h
  split at h
  · split at h
    · cases hg : getKey kd "width" with
      | error e =>
          rw [hg] at h
          exact absurd h (by simp)
      | ok theta =>
          rw [hg] at h
          dsimp only at h
          rw [hasKey_ite_setKey _ (by decide), hb,
            if_neg Bool.false_ne_true] at h
          injection h with h
          exact (congrArg Prod.snd h).symm
    · exact absurd h (by simp)
  · exact absurd h (by simp)

/-- Without a `bounds` key, `_quadratic_setup` appends `nd` default pairs
for the slope and one more for the degree. -/
theorem quadraticSetup_no_override {kd kd2 : KDict} {b b2 db : List Val}
    {n : Nat} (hb : hasKey kd "bounds" = false)
    (h : quadraticSetup kd b n db = .ok (kd2, b2)) :
    b2 = b ++ tupleRepeat db n ++ db := by
  unfold quadraticSetup at h
  split at h
  · split at h
    · cases hg : getKey kd "slope" with
      | error e =>
          rw [hg] at h
          exact absurd h (by simp)
      | ok theta =>
          rw [hg] at h
          dsimp only at h
          rw [hasKey_ite_setKey _ (by decide), hb] at h
          simp only [if_neg Bool.false_ne_true] at h
          injection h with h
          exact (congrArg Prod.snd h).symm
    · exact absurd h (by simp)
  · exact absurd h (by simp)

/-- Every bound entry produced by the per-type dispatch, absent a `bounds`
key, is an inherited entry or a default entry. -/
theorem dispatchSetup_bounds_sub {ktype : Val} {kd kd2 : KDict}
    {b1 b2 db : List Val} {n n2 : Nat}
    (hb : hasKey kd "bounds" = false)
    (h : dispatchSetup ktype kd b1 n db = .ok (kd2, b2, n2)) :
    ∀ v ∈ b2, v ∈ b1 ∨ v ∈ db := by
  unfold dispatchSetup at h
  split at h
  · injection h with h
    injection h with h1 h
    injection h with h2 h3
    rw [← h2]
    exact fun v hv => .inl hv
  · injection h with h
    injection h with h1 h
    injection h with h2 h3
    rw [← h2]
    exact fun v hv => .inl hv
  · split at h
    · exact absurd h (by simp)
    · rename_i kda ba heq
      injection h with h
      injection h with h1 h
      injection h with h2 h3
      rw [← h2, constantSetup_no_override hb heq]
      intro v hv
      rcases List.mem_append.mp hv with hv | hv
      · exact .inl hv
      · exact .inr hv
  · split at h
    · exact absurd h (by simp)
    · rename_i kda ba heq
      injection h with h
      injection h with h1 h
      injection h with h2 h3
      rw [← h2, gaussianSetup_no_override hb heq]
      intro v hv
      rcases List.mem_append.mp hv with hv | hv
      · exact .inl hv
      · exact .inr (mem_tupleRepeat hv)
  · split at h
    · exact absurd h (by simp)
    · rename_i kda ba heq
      injection h with h
      injection h with h1 h
      injection h with h2 h3
      rw [← h2, quadraticSetup_no_override hb heq]
      intro v hv
      rcases List.mem_append.mp hv with hv | hv
      · rcases List.mem_append.mp hv with hv | hv
        · exact .inl hv
        · exact .inr (mem_tupleRepeat hv)
      · exact .inr hv
  · split at h
    · exact absurd h (by simp)
    · rename_i kda ba heq
      injection h with h
      injection h with h1 h
      injection h with h2 h3
      rw [← h2, laplacianSetup_no_override hb heq]
      intro v hv
      rcases List.mem_append.mp hv with hv | hv
      · exact .inl hv
      · exact .inr (mem_tupleRepeat hv)
  · exact absurd h (by simp)
  · split at h <;> exact absurd h (by simp)
  · split at h <;> exact absurd h (by simp)
  · exact absurd h (by simp)

/-- Every bound entry produced by one loop iteration, absent per-block
override keys, is an inherited entry or a default entry. -/
theorem prepareBlock_bounds_sub {kd kd2 : KDict} {b b2 db : List Val}
    {n n2 : Nat} (hb : hasKey kd "bounds" = false)
    (hsb : hasKey kd "scaling_bounds" = false)
    (h : prepareBlock kd b n db = .ok (kd2, b2, n2)) :
    ∀ v ∈ b2, v ∈ b ∨ v ∈ db := by
  unfold prepareBlock at h
  split at h
  · split at h
    · exact absurd h (by simp)
    · split at h
      · exact absurd h (by simp)
      · split at h
        · exact absurd h (by simp)
        · rename_i b1 hstep
          split at h
          · exact absurd h (by simp)
          · intro v hv
            rcases dispatchSetup_bounds_sub hb h v hv with hv1 | hv1
            · rcases scalingStep_no_override hsb hstep with hb1 | hb1
              · rw [hb1] at hv1
                exact .inl hv1
              · rw [hb1] at hv1
                rcases List.mem_append.mp hv1 with hv2 | hv2
                · exact .inl hv2
                · exact .inr hv2
            · exact .inr hv1
  · exact absurd h (by simp)

/-- Every bound entry produced by the whole loop, absent per-block
override keys, is an inherited entry or a default entry. -/
theorem prepareBlocks_bounds_sub (spec : KernelSpec) :
    ∀ (b b2 db : List Val) (n n2 : Nat) (spec2 : KernelSpec),
    (∀ p ∈ spec, hasKey p.2 "bounds" = false ∧
      hasKey p.2 "scaling_bounds" = false) →
    prepareBlocks spec b n db = .ok (spec2, b2, n2) →
    ∀ v ∈ b2, v ∈ b ∨ v ∈ db := by
  induction spec with
  | nil =>
      intro b b2 db n n2 spec2 _ h v hv
      injection h with h
      injection h with h1 h
      injection h with h2 h3
      rw [← h2] at hv
      exact .inl hv
  | cons p rest ih =>
      intro b b2 db n n2 spec2 hkeys h v hv
      obtain ⟨key, kd⟩ := p
      rw [prepareBlocks_cons] at h
      split at h
      · exact absurd h (by simp)
      · rename_i kda ba na heq1
        split at h
        · exact absurd h (by simp)
        · rename_i resta bb nb heq2
          injection h with h
          injection h with h1 h
          injection h with h2 h3
          rw [← h2] at hv
          have hhead := hkeys (key, kd) (List.mem_cons_self _ _)
          rcases ih ba bb db na nb resta
              (fun p hp => hkeys p (List.mem_cons_of_mem _ hp)) heq2 v hv
            with hv1 | hv1
          · exact prepareBlock_bounds_sub hhead.1 hhead.2 heq1 v hv1
          · exact .inr hv1

/-- Claim C7: the default bound pair is `(1e-12, None)` normally and
`(1e-6, 1e6)` when gradients are evaluated; chosen once, it is the value
of every bound entry of a successful normalization without per-block
override keys, apart from the trailing regularization entry. -/
theorem default_bound_pair_selection (spec : KernelSpec) (reg : Val)
    (eg : Bool) (d : Nat) (spec2 : KernelSpec) (bds : List Val)
    (hkeys : ∀ p ∈ spec, hasKey p.2 "bounds" = false ∧
      hasKey p.2 "scaling_bounds" = false)
    (h : prepare_kernels spec reg eg d = .ok (spec2, bds)) :
    ∀ v ∈ bds,
      v = (if eg then Val.tuple [.float (1 / 1000000), .float 1000000]
           else Val.tuple [.float (1 / 1000000000000), .pyNone]) ∨
        v = reg := by
  rw [prepare_kernels_eq] at h
  split at h
  · exact absurd h (by simp)
  · rename_i s b nmid heq
    injection h with h
    injection h with h1 h2
    rw [← h2]
    intro v hv
    rcases List.mem_append.mp hv with hv | hv
    · rcases prepareBlocks_bounds_sub spec [] b
          (defaultBoundsFor eg) d nmid s hkeys heq v hv with hv1 | hv1
      · exact absurd hv1 (List.not_mem_nil v)
      · left
        unfold defaultBoundsFor at hv1
        cases eg with
        | false => simpa using hv1
        | true => simpa using hv1
    · right
      simpa using hv

/-- Witness for claim C7 at a concrete input: with `eval_gradients`
false, the one-constant spec yields only default entries and the
regularization pair. -/
theorem default_bound_pair_selection_witness :
    Val.tuple [.float (1 / 1000000000000), .pyNone] =
      (if false then Val.tuple [.float (1 / 1000000), .float 1000000]
       else Val.tuple [.float (1 / 1000000000000), .pyNone]) ∨
    Val.tuple [.float (1 / 1000000000000), .pyNone] =
      Val.tuple [.float 0, .float 1] :=
  default_bound_pair_selection
    [("k", [("type", .str "constant"), ("const", .float 1)])]
    (.tuple [.float 0, .float 1]) false 1
    [("k", [("type", .str "constant"), ("const", .float 1)])]
    [.tuple [.float (1 / 1000000000000), .pyNone],
     .tuple [.float 0, .float 1]]
    (by decide) rfl
    (Val.tuple [.float (1 / 1000000000000), .pyNone])
    (List.mem_cons_self _ _)

/-- A block whose type value is the string sqe or scaled_sqe always makes
the loop body fail: if the features / dimension / scaling handling
survives, the dispatch has no setup routine for it. -/
theorem prepareBlock_sqe_errors (kd : KDict) (b db : List Val) (n : Nat)
    (hty : getKey kd "type" = .ok (.str "sqe") ∨
      getKey kd "type" = .ok (.str "scaled_sqe")) :
    ∃ e, prepareBlock kd b n db = .error e := by
  have hk : hasKey kd "type" = true := by
    rcases hty with h | h
    · exact hasKey_of_getKey h
    · exact hasKey_of_getKey h
  unfold prepareBlock
  rw [hk, if_pos rfl]
  cases featuresStep kd n with
  | error e => exact ⟨e, rfl⟩
  | ok nd1 =>
      dsimp only
      cases dimensionStep kd nd1 with
      | error e => exact ⟨e, rfl⟩
      | ok nd2 =>
          dsimp only
          cases scalingStep kd b db with
          | error e => exact ⟨e, rfl⟩
          | ok b1 =>
              dsimp only
              rcases hty with h | h
              · rw [h]
                exact ⟨.notImplementedError, rfl⟩
              · rw [h]
                exact ⟨.notImplementedError, rfl⟩

/-- A kernel dictionary containing an sqe or scaled_sqe typed block never
normalizes successfully. -/
theorem prepareBlocks_sqe_errors (spec : KernelSpec) :
    ∀ (b db : List Val) (n : Nat),
    (∃ p ∈ spec, getKey p.2 "type" = .ok (.str "sqe") ∨
      getKey p.2 "type" = .ok (.str "scaled_sqe")) →
    ∃ e, prepareBlocks spec b n db = .error e := by
  induction spec with
  | nil =>
      intro b db n hex
      obtain ⟨p, hp, _⟩ := hex
      exact absurd hp (List.not_mem_nil p)
  | cons q rest ih =>
      intro b db n hex
      obtain ⟨p, hp, hty⟩ := hex
      obtain ⟨key, kd⟩ := q
      rw [prepareBlocks_cons]
      rcases List.mem_cons.mp hp with hp | hp
      · subst hp
        obtain ⟨e, he⟩ := prepareBlock_sqe_errors kd b db n hty
        rw [he]
        exact ⟨e, rfl⟩
      · cases hpb : prepareBlock kd b n db with
        | error e => exact ⟨e, rfl⟩
        | ok t =>
            obtain ⟨kd2, b2, nd2⟩ := t
            dsimp only
            obtain ⟨e, he⟩ := ih b2 db nd2 ⟨p, hp, hty⟩
            rw [he]
            exact ⟨e, rfl⟩

/-- When the loop reaches an sqe or scaled_sqe block (its prefix having
normalized fine and the block itself having no features / dimension /
scaling keys), the failure is specifically the no-setup-routine error. -/
theorem prepareBlocks_sqe_reached (P : KernelSpec) (k : String) (B : KDict)
    (Q : KernelSpec) (b0 db : List Val) (d : Nat) (P' : KernelSpec)
    (bds : List Val) (d' : Nat)
    (hpre : prepareBlocks P b0 d db = .ok (P', bds, d'))
    (hty : getKey B "type" = .ok (.str "sqe") ∨
      getKey B "type" = .ok (.str "scaled_sqe"))
    (hf : hasKey B "features" = false) (hd : hasKey B "dimension" = false)
    (hs : hasKey B "scaling" = false) :
    prepareBlocks (P ++ (k, B) :: Q) b0 d db =
      .error .notImplementedError := by
  rw [prepareBlocks_append, hpre]
  dsimp only
  rw [prepareBlocks_cons]
  have hk : hasKey B "type" = true := by
    rcases hty with h | h
    · exact hasKey_of_getKey h
    · exact hasKey_of_getKey h
  have hfs : featuresStep B d' = .ok d' := by
    unfold featuresStep
    rw [hf]
    rfl
  have hds : dimensionStep B d' = .ok d' := by
    unfold dimensionStep
    rw [hd]
    rfl
  have hss : scalingStep B bds db = .ok bds := by
    unfold scalingStep
    rw [hs]
    rfl
  have hblock : prepareBlock B bds d' db = .error .notImplementedError := by
    unfold prepareBlock
    rw [hk, if_pos rfl, hfs]
    dsimp only
    rw [hds]
    dsimp only
    rw [hss]
    dsimp only
    rcases hty with h | h
    · rw [h]
      rfl
    · rw [h]
      rfl
  rw [hblock]

/-- Claim C9: a kernel dictionary with a block of type sqe or scaled_sqe
is rejected by the normalizer — with the no-setup-routine error when the
block is reached, and always with some error — even though the codec
recognizes both types: `kdict2list` encodes an sqe block's width as-is,
and `list2kdict` decodes both sqe and scaled_sqe blocks. -/
theorem sqe_rejected_by_normalizer_handled_by_codec :
    (∀ (P : KernelSpec) (k : String) (B : KDict) (Q : KernelSpec)
        (reg : Val) (eg : Bool) (d : Nat) (P' : KernelSpec)
        (bds : List Val) (d' : Nat),
      prepareBlocks P [] d (defaultBoundsFor eg) = .ok (P', bds, d') →
      (getKey B "type" = .ok (.str "sqe") ∨
        getKey B "type" = .ok (.str "scaled_sqe")) →
      hasKey B "features" = false → hasKey B "dimension" = false →
      hasKey B "scaling" = false →
      prepare_kernels (P ++ (k, B) :: Q) reg eg d =
        .error .notImplementedError) ∧
    (∀ (spec : KernelSpec) (reg : Val) (eg : Bool) (d : Nat),
      (∃ p ∈ spec, getKey p.2 "type" = .ok (.str "sqe") ∨
        getKey p.2 "type" = .ok (.str "scaled_sqe")) →
      ∃ e, prepare_kernels spec reg eg d = .error e) ∧
    (∀ (ws : List Val) (nd : Option Nat),
      kdict2list [("type", .str "sqe"), ("width", .list ws)] nd =
        .ok ([], .list ws)) ∧
    (∀ q1 q2 : ℚ,
      list2kdict [q1, q2]
          [("k", [("type", .str "scaled_sqe"),
                  ("d_scaling", .list [.float 3]),
                  ("width", .list [.float 4])])] =
        .ok [("k", [("type", .str "scaled_sqe"),
                    ("d_scaling", .list [.float q1]),
                    ("width", .list [.float q2])])]) ∧
    (∀ q : ℚ,
      list2kdict [q]
          [("k", [("type", .str "sqe"), ("width", .list [.float 7])])] =
        .ok [("k", [("type", .str "sqe"),
                    ("width", .list [.float q])])]) := by
  refine ⟨?_, ?_, ?_, ?_, ?_⟩
  · intro P k B Q reg eg d P' bds d' hpre hty hf hd hs
    rw [prepare_kernels_eq,
      prepareBlocks_sqe_reached P k B Q [] (defaultBoundsFor eg) d P' bds
        d' hpre hty hf hd hs]
  · intro spec reg eg d hex
    obtain ⟨e, he⟩ := prepareBlocks_sqe_errors spec []
      (defaultBoundsFor eg) d hex
    refine ⟨e, ?_⟩
    rw [prepare_kernels_eq, he]
  · intro ws nd
    rfl
  · intro q1 q2
    rfl
  · intro q
    rfl

/-- Witness for claim C9 at a concrete input: a one-block sqe dictionary
is rejected with the no-setup-routine error. -/
theorem sqe_rejected_by_normalizer_handled_by_codec_witness :
    prepare_kernels
        [("k", [("type", .str "sqe"), ("width", .list [.float 1])])]
        (.tuple []) false 2 = .error .notImplementedError :=
  sqe_rejected_by_normalizer_handled_by_codec.1 [] "k"
    [("type", .str "sqe"), ("width", .list [.float 1])] []
    (.tuple []) false 2 [] [] 2 rfl (.inl rfl) rfl rfl rfl

/-- Claim C8: a gaussian block whose `width` is a scalar float is rewritten
to a list of the resolved per-block dimension length (here the ambient
count, since the block carries no `features` or `dimension` key); default
bound entries are appended once per dimension. -/
theorem gaussian_scalar_width_broadcast (w : ℚ) (d : Nat) (reg : Val)
    (eg : Bool) :
    prepare_kernels [("k1", [("type", .str "gaussian"), ("width", .float w)])]
        reg eg d =
      .ok ([("k1", [("type", .str "gaussian"),
                    ("width", .list (List.replicate d (.float w)))])],
           tupleRepeat (defaultBoundsFor eg) d ++ [reg]) := by
  rfl

/-- Claim C3 (amended): the dimension count used to broadcast a block's
scalar parameters is the loop-carried count threaded through
`prepare_kernels` — initialized to the caller's ambient count but
persistently overwritten by any earlier block's `features` length or
`dimension` handling — not the caller-supplied ambient count itself.  A
featureless scalar-width gaussian block appended after a prefix `P` is
broadcast to whatever count `d'` the prefix left behind. -/
theorem gaussian_broadcast_uses_threaded_dim (P : KernelSpec) (k : String)
    (w : ℚ) (reg : Val) (eg : Bool) (d : Nat) (P' : KernelSpec)
    (bds : List Val) (d' : Nat)
    (h : prepareBlocks P [] d (defaultBoundsFor eg) = .ok (P', bds, d')) :
    prepare_kernels
        (P ++ [(k, [("type", .str "gaussian"), ("width", .float w)])])
        reg eg d =
      .ok (P' ++ [(k, [("type", .str "gaussian"),
                       ("width", .list (List.replicate d' (.float w)))])],
           bds ++ tupleRepeat (defaultBoundsFor eg) d' ++ [reg]) := by
  rw [prepare_kernels_eq, prepareBlocks_append, h]
  rfl

/-- Witness for claim C3's amended theorem: the prefix block declares
`features = [0]`, so the appended gaussian block is broadcast to one width
rather than the ambient three. -/
theorem gaussian_broadcast_uses_threaded_dim_witness :
    prepare_kernels
        ([("k1", [("type", .str "gaussian"), ("width", .float 1),
                  ("features", .list [.int 0])])] ++
         [("k2", [("type", .str "gaussian"), ("width", .float 1)])])
        (.tuple []) false 3 =
      .ok ([("k1", [("type", .str "gaussian"),
                    ("width", .list [.float 1]),
                    ("features", .list [.int 0])])] ++
           [("k2", [("type", .str "gaussian"),
                    ("width", .list (List.replicate 1 (.float 1)))])],
           [.tuple [.float (1 / 1000000000000), .pyNone]] ++
             tupleRepeat (defaultBoundsFor false) 1 ++ [.tuple []]) :=
  gaussian_broadcast_uses_threaded_dim
    [("k1", [("type", .str "gaussian"), ("width", .float 1),
             ("features", .list [.int 0])])]
    "k2" 1 (.tuple []) false 3
    [("k1", [("type", .str "gaussian"), ("width", .list [.float 1]),
             ("features", .list [.int 0])])]
    [.tuple [.float (1 / 1000000000000), .pyNone]] 1 rfl

/-! ### The exact round trip on core-variant blocks (claim C1, amended) -/

/-- Per-block encoding of a core block: the scaling list and the theta
list come out exactly as constructed. -/
theorem kdict2list_core (b : CoreBlock) (sc : Option ℚ) (nd : Option Nat) :
    kdict2list (coreDict b sc) nd =
      .ok (coreScalingVals sc, .list (coreThetaVals b)) := by
  cases b <;> cases sc <;> rfl

theorem coreThetaVals_eq (b : CoreBlock) :
    coreThetaVals b = (coreTheta b).map Val.float := by
  cases b <;> simp [coreThetaVals, coreTheta]

theorem coreScalingVals_eq (sc : Option ℚ) :
    coreScalingVals sc = (coreScaling sc).map Val.float := by
  cases sc <;> rfl

theorem kdicts2listRows_core (bs : List (String × CoreBlock × Option ℚ)) :
    ∀ nd, kdicts2listRows (coreSpec bs) nd =
      .ok (bs.map (fun x => (coreRow x.2.1 x.2.2).map Val.float)) := by
  induction bs with
  | nil => intro nd; rfl
  | cons x bsr ih =>
      intro nd
      obtain ⟨key, b, sc⟩ := x
      show kdicts2listRows ((key, coreDict b sc) :: coreSpec bsr) nd = _
      unfold kdicts2listRows
      rw [kdict2list_core]
      dsimp only [listAdd]
      rw [ih nd]
      dsimp only
      rw [coreScalingVals_eq, coreThetaVals_eq, ← List.map_append]
      rfl

theorem flatten_map_map {α : Type} (l : List α) (g : α → List ℚ) :
    (l.map (fun y => (g y).map Val.float)).flatten =
      ((l.map g).flatten).map Val.float := by
  induction l with
  | nil => rfl
  | cons x xs ih => simp [ih]

/-- Encoding a non-empty core-block dictionary yields exactly the
concatenation of the per-block segments. -/
theorem kdicts2list_core_spec (bs : List (String × CoreBlock × Option ℚ))
    (nd : Option Nat) (hne : bs ≠ []) :
    kdicts2list (coreSpec bs) nd = .ok (coreFlat bs) := by
  unfold kdicts2list
  rw [kdicts2listRows_core bs nd]
  dsimp only
  cases bs with
  | nil => exact absurd rfl hne
  | cons x bsr =>
      rw [show ((x :: bsr).map
          (fun y => (coreRow y.2.1 y.2.2).map Val.float)).isEmpty = false
        from rfl]
      rw [if_neg Bool.false_ne_true]
      rw [flatten_map_map (x :: bsr) (fun y => coreRow y.2.1 y.2.2)]
      rw [valsToFloats_map_float]
      rfl

/-- The per-type decode consumption on a core block reads back exactly the
values the block encodes. -/
theorem decodeDispatch_core (b : CoreBlock) (sc : Option ℚ) (hs : List ℚ)
    (ki1 : Nat) (rest : List ℚ) (hok : coreOk b = true)
    (hdrop : hs.drop ki1 = coreTheta b ++ rest) :
    decodeDispatch hs (.str (coreTypeName b)) (coreDict b sc) ki1 =
      (.ok (ki1 + (coreTheta b).length), coreDict b sc) := by
  cases b with
  | linear => rfl
  | constant c =>
      have hidx : pyIndex hs ki1 = .ok c :=
        pyIndex_of_drop_cons (by simpa [coreTheta] using hdrop)
      unfold decodeDispatch
      rw [hidx]
      rfl
  | gaussian ws =>
      have hslice : pySlice hs ki1 ws.length = ws :=
        pySlice_of_drop_append hdrop
      dsimp only [coreTypeName]
      rw [show decodeDispatch hs (.str "gaussian")
            (coreDict (.gaussian ws) sc) ki1 =
          (.ok (ki1 + (ws.map Val.float).length),
           setKey (coreDict (.gaussian ws) sc) "width"
             (.list ((pySlice hs ki1
               (ws.map Val.float).length).map .float))) from rfl]
      rw [List.length_map, hslice]
      rfl
  | sqe ws =>
      have hslice : pySlice hs ki1 ws.length = ws :=
        pySlice_of_drop_append hdrop
      dsimp only [coreTypeName]
      rw [show decodeDispatch hs (.str "sqe")
            (coreDict (.sqe ws) sc) ki1 =
          (.ok (ki1 + (ws.map Val.float).length),
           setKey (coreDict (.sqe ws) sc) "width"
             (.list ((pySlice hs ki1
               (ws.map Val.float).length).map .float))) from rfl]
      rw [List.length_map, hslice]
      rfl
  | laplacian ws =>
      have hslice : pySlice hs ki1 ws.length = ws :=
        pySlice_of_drop_append hdrop
      dsimp only [coreTypeName]
      rw [show decodeDispatch hs (.str "laplacian")
            (coreDict (.laplacian ws) sc) ki1 =
          (.ok (ki1 + (ws.map Val.float).length),
           setKey (coreDict (.laplacian ws) sc) "width"
             (.list ((pySlice hs ki1
               (ws.map Val.float).length).map .float))) from rfl]
      rw [List.length_map, hslice]
      rfl
  | scaledSqe ds ws =>
      have hlen : ds.length = ws.length := by
        unfold coreOk at hok
        exact eq_of_beq hok
      have hdrop1 : hs.drop ki1 = ds ++ (ws ++ rest) := by
        simpa [coreTheta, List.append_assoc] using hdrop
      have hds : pySlice hs ki1 ws.length = ds := by
        rw [← hlen]
        exact pySlice_of_drop_append hdrop1
      have hdrop2 : hs.drop (ki1 + ws.length) = ws ++ rest := by
        rw [← hlen]
        exact drop_of_drop_append hdrop1
      have hws : pySlice hs (ki1 + ws.length) ws.length = ws :=
        pySlice_of_drop_append hdrop2
      have hcount : ki1 + 2 * ws.length =
          ki1 + (coreTheta (.scaledSqe ds ws)).length := by
        simp only [coreTheta, List.length_append, hlen]
        omega
      dsimp only [coreTypeName]
      rw [show decodeDispatch hs (.str "scaled_sqe")
            (coreDict (.scaledSqe ds ws) sc) ki1 =
          (.ok (ki1 + 2 * (ws.map Val.float).length),
           setKey (setKey (coreDict (.scaledSqe ds ws) sc) "d_scaling"
               (.list ((pySlice hs ki1 (ws.map Val.float).length).map .float)))
             "width"
             (.list ((pySlice hs (ki1 + (ws.map Val.float).length)
               (ws.map Val.float).length).map .float))) from rfl]
      rw [List.length_map, hds, hws, hcount]
      rfl

/-- One full decode step on a core block rereads the block's own segment
and leaves the dictionary unchanged. -/
theorem decodeBlock_core (b : CoreBlock) (sc : Option ℚ) (hs : List ℚ)
    (ki : Nat) (rest : List ℚ) (hok : coreOk b = true)
    (hdrop : hs.drop ki = coreRow b sc ++ rest) :
    decodeBlock hs (coreDict b sc) ki =
      (.ok (ki + (coreRow b sc).length), coreDict b sc) := by
  cases sc with
  | none =>
      have h0 : decodeBlock hs (coreDict b none) ki =
          decodeDispatch hs (.str (coreTypeName b)) (coreDict b none) ki := by
        cases b <;> rfl
      rw [h0, decodeDispatch_core b none hs ki rest hok
        (by simpa [coreRow, coreScaling] using hdrop)]
      rw [show coreRow b none = coreTheta b from by
        simp [coreRow, coreScaling]]
  | some q =>
      have hdrop' : hs.drop ki = q :: (coreTheta b ++ rest) := by
        simpa [coreRow, coreScaling, List.append_assoc] using hdrop
      have hidx : pyIndex hs ki = .ok q := pyIndex_of_drop_cons hdrop'
      have hsc : decodeScaling hs (coreDict b (some q)) ki =
          (.ok (ki + 1), coreDict b (some q)) := by
        unfold decodeScaling
        rw [hidx]
        cases b <;> rfl
      have h0 : decodeBlock hs (coreDict b (some q)) ki =
          decodeDispatch hs (.str (coreTypeName b))
            (coreDict b (some q)) (ki + 1) := by
        unfold decodeBlock
        rw [hsc]
        cases b <;> rfl
      have hdrop1 : hs.drop (ki + 1) = coreTheta b ++ rest := by
        have h1 : hs.drop ki = [q] ++ (coreTheta b ++ rest) := by
          simpa using hdrop'
        simpa using drop_of_drop_append h1
      rw [h0, decodeDispatch_core b (some q) hs (ki + 1) rest hok hdrop1]
      have hcount : ki + 1 + (coreTheta b).length =
          ki + (coreRow b (some q)).length := by
        simp [coreRow, coreScaling]
        omega
      rw [hcount]

/-- Decoding the flat segment of a core-block dictionary back into it is
the identity, block by block. -/
theorem list2kdictGo_core (bs : List (String × CoreBlock × Option ℚ)) :
    ∀ (hs : List ℚ) (ki : Nat) (rest : List ℚ),
      (∀ x ∈ bs, coreOk x.2.1 = true) →
      hs.drop ki = coreFlat bs ++ rest →
      list2kdictGo hs (coreSpec bs) ki = (.ok (), coreSpec bs) := by
  induction bs with
  | nil =>
      intro hs ki rest _ _
      rfl
  | cons x bsr ih =>
      intro hs ki rest hok hdrop
      obtain ⟨key, b, sc⟩ := x
      have hokh : coreOk b = true := hok (key, b, sc) (List.mem_cons_self _ _)
      have hdrop1 : hs.drop ki = coreRow b sc ++ (coreFlat bsr ++ rest) := by
        have : coreFlat ((key, b, sc) :: bsr) =
            coreRow b sc ++ coreFlat bsr := by
          simp [coreFlat]
        rw [this, List.append_assoc] at hdrop
        exact hdrop
      have hstep := decodeBlock_core b sc hs ki (coreFlat bsr ++ rest)
        hokh hdrop1
      show list2kdictGo hs ((key, coreDict b sc) :: coreSpec bsr) ki = _
      unfold list2kdictGo
      rw [hstep]
      dsimp only
      have hdrop2 : hs.drop (ki + (coreRow b sc).length) =
          coreFlat bsr ++ rest := drop_of_drop_append hdrop1
      rw [ih hs (ki + (coreRow b sc).length) rest
        (fun y hy => hok y (List.mem_cons_of_mem _ hy)) hdrop2]
      rfl

/-- Claim C1 (amended): for a non-empty kernel dictionary built from
blocks of the directly recognized non-quadratic variants — constant,
linear, gaussian, sqe, laplacian, scaled_sqe, each with its float
parameters, an optional float scaling, and (for scaled_sqe) `d_scaling`
and `width` of equal length — encoding with `kdicts2list` succeeds and
decoding that vector with `list2kdict` reproduces the dictionary exactly.
(The claim as stated fails in general: generic blocks never advance the
decode cursor and a quadratic degree comes back as a one-element list —
see the counterexample.) -/
theorem roundtrip_exact_core_types
    (bs : List (String × CoreBlock × Option ℚ)) (d : Nat)
    (hok : ∀ x ∈ bs, coreOk x.2.1 = true) (hne : bs ≠ []) :
    kdicts2list (coreSpec bs) (some d) = .ok (coreFlat bs) ∧
    list2kdict (coreFlat bs) (coreSpec bs) = .ok (coreSpec bs) := by
  constructor
  · exact kdicts2list_core_spec bs (some d) hne
  · have hgo := list2kdictGo_core bs (coreFlat bs) 0 []
      hok (by simp)
    unfold list2kdict
    rw [hgo]

/-- Witness for claim C1's amended theorem: a gaussian block with a
scaling and a constant block round-trip exactly. -/
theorem roundtrip_exact_core_types_witness :
    kdicts2list
        (coreSpec [("k1", CoreBlock.gaussian [1, 2], some 3),
                   ("k2", CoreBlock.constant 5, none)]) (some 2) =
      .ok (coreFlat [("k1", CoreBlock.gaussian [1, 2], some 3),
                     ("k2", CoreBlock.constant 5, none)]) ∧
    list2kdict
        (coreFlat [("k1", CoreBlock.gaussian [1, 2], some 3),
                   ("k2", CoreBlock.constant 5, none)])
        (coreSpec [("k1", CoreBlock.gaussian [1, 2], some 3),
                   ("k2", CoreBlock.constant 5, none)]) =
      .ok (coreSpec [("k1", CoreBlock.gaussian [1, 2], some 3),
                     ("k2", CoreBlock.constant 5, none)]) :=
  roundtrip_exact_core_types
    [("k1", CoreBlock.gaussian [1, 2], some 3),
     ("k2", CoreBlock.constant 5, none)] 2
    (by decide) (List.cons_ne_nil _ _)

end CatLearn
